import Mathlib

/-!
Verification of the heritage-assets normalization-and-reconciliation pipeline.

The definitions below are a shallow embedding of the Python sources:
  * `src/app/tidying.py`      — phone/address normalization and the field differ
  * `src/scripts/process_snapshot.py` (with helpers from
    `src/scripts/import_historical.py`) — the SCD2 reconciliation pass

Conventions of the embedding:
  * Python strings are `String` (processed as `List Char`);
    `None`-or-absent dict values are `Option String` (`none` merges
    "key absent" and "value None", which coincide for every access the
    pipeline performs with a `None`/empty default).
  * Dates are `Nat` (only equality/order on dates is ever used).
  * The two compiled regular expressions are embedded as explicit
    backtracking matchers with Python `re` semantics: leftmost match
    position, greedy bounded quantifiers trying longest first,
    alternation trying the left branch first.
-/

namespace Heritage

/-! ### Character classes (Python `re` semantics, ASCII inputs) -/

/-- Python `\s` (ASCII range, as produced by this registry's data). -/
def isPySpace (c : Char) : Bool :=
  c = ' ' || c = '\t' || c = '\n' || c = '\r' || c = '\x0b' || c = '\x0c'

/-- Character class `[A-Z]` under `re.IGNORECASE`. -/
def isAlphaUK (c : Char) : Bool :=
  ('A' ≤ c && c ≤ 'Z') || ('a' ≤ c && c ≤ 'z')

/-- Character class `\d`. -/
def isDigitC (c : Char) : Bool :=
  '0' ≤ c && c ≤ '9'

/-- Character class `[\s\-]`. -/
def isSepC (c : Char) : Bool :=
  isPySpace c || c = '-'

/-- Python `str.strip()` on the left. -/
def lstripWs : List Char → List Char
  | [] => []
  | c :: t => if isPySpace c then lstripWs t else c :: t

/-- Python `str.strip()`. -/
def pyStrip (cs : List Char) : List Char :=
  (lstripWs ((lstripWs cs.reverse)).reverse)

/-- Python `str.strip()` on a `String`. -/
def pyStripS (s : String) : String :=
  String.mk (pyStrip s.data)

/-- Python `str.rstrip(", ")`: drop trailing commas and spaces. -/
def rstripCommaSpace (cs : List Char) : List Char :=
  ((cs.reverse.dropWhile (fun c => c = ',' || c = ' '))).reverse

/-- Python `str.upper()` (ASCII). -/
def pyUpper (cs : List Char) : List Char :=
  cs.map Char.toUpper

/-! ### A small backtracking regex engine

A `Matcher` maps a character list to the list of lengths its pattern can
consume at the head of the list, in Python backtracking preference order
(first element = the length `re` would pick when anchored here). -/

def Matcher : Type := List Char → List Nat

/-- Single character of a class. -/
def mChar (p : Char → Bool) : Matcher := fun cs =>
  match cs with
  | c :: _ => if p c then [1] else []
  | [] => []

/-- Concatenation: outer choice from the left pattern, then the right. -/
def mSeq (a b : Matcher) : Matcher := fun cs =>
  (a cs).flatMap (fun n => (b (cs.drop n)).map (fun m => n + m))

/-- Alternation `x|y`: left branch preferred. -/
def mAlt (a b : Matcher) : Matcher := fun cs => a cs ++ b cs

/-- Greedy option `x?`: presence preferred. -/
def mOpt (a : Matcher) : Matcher := fun cs => a cs ++ [0]

/-- Length of the maximal prefix inside a character class. -/
def countRun (p : Char → Bool) : List Char → Nat
  | [] => 0
  | c :: t => if p c then countRun p t + 1 else 0

/-- Greedy bounded repetition of a character class, `[..]{lo,hi}`. -/
def mRep (p : Char → Bool) (lo hi : Nat) : Matcher := fun cs =>
  let top := min hi (countRun p cs)
  if top < lo then [] else (List.range (top + 1 - lo)).map (fun k => top - k)

/-- Greedy star of a character class, `[..]*`. -/
def mStar (p : Char → Bool) : Matcher := fun cs =>
  let run := countRun p cs
  (List.range (run + 1)).map (fun k => run - k)

/-- Literal string. -/
def mStr (s : String) : Matcher := fun cs =>
  if cs.take s.data.length = s.data then [s.data.length] else []

/-- First match scanning left to right: `(offset, length, rest after match)`,
mirroring `re.search` / the first element of `re.finditer`. -/
def searchPair (m : Matcher) : List Char → Option (Nat × Nat × List Char)
  | [] =>
    match (m []).head? with
    | some l => some (0, l, [])
    | none => none
  | c :: t =>
    match (m (c :: t)).head? with
    | some l => some (0, l, (c :: t).drop l)
    | none => (searchPair m t).map (fun r => (r.1 + 1, r.2.1, r.2.2))

/-- All non-overlapping matches as absolute `(start, stop)` pairs, scanning
left to right, mirroring `re.finditer`. The fuel bounds the recursion; the
two patterns used here never match the empty string, so the fuel
`length + 1` is never exhausted. -/
def finditerAux (m : Matcher) : Nat → List Char → Nat → List (Nat × Nat)
  | 0, _, _ => []
  | Nat.succ fuel, cs, base =>
    match searchPair m cs with
    | none => []
    | some (s, l, rest) =>
      (base + s, base + s + l) :: finditerAux m fuel rest (base + s + l)

def finditerM (m : Matcher) (cs : List Char) : List (Nat × Nat) :=
  finditerAux m (cs.length + 1) cs 0

/-- Absolute `(start, stop)` of the first match, like `re.search`. -/
def searchM (m : Matcher) (cs : List Char) : Option (Nat × Nat) :=
  (searchPair m cs).map (fun r => (r.1, r.1 + r.2.1))

/-- Text of a span of the subject string. -/
def sliceCs (cs : List Char) (s e : Nat) : List Char :=
  (cs.drop s).take (e - s)

/-! ### The two compiled patterns of `tidying.py` -/

/-- `UK_POSTCODE_PATTERN`: `([A-Z]{1,2}\d[A-Z\d]?\s*\d[A-Z]{2})`, IGNORECASE. -/
def postcodeM : Matcher :=
  mSeq (mRep isAlphaUK 1 2)
    (mSeq (mChar isDigitC)
      (mSeq (mOpt (mChar (fun c => isAlphaUK c || isDigitC c)))
        (mSeq (mStar isPySpace)
          (mSeq (mChar isDigitC) (mRep isAlphaUK 2 2)))))

/-- `PHONE_PATTERN`: `(?:(?:\+44|0044)\s*)?(?:0?\d{2,5}[\s\-]?\d{3,4}[\s\-]?\d{3,4})`. -/
def phoneM : Matcher :=
  mSeq (mOpt (mSeq (mAlt (mStr "+44") (mStr "0044")) (mStar isPySpace)))
    (mSeq (mOpt (mChar (fun c => c = '0')))
      (mSeq (mRep isDigitC 2 5)
        (mSeq (mOpt (mChar isSepC))
          (mSeq (mRep isDigitC 3 4)
            (mSeq (mOpt (mChar isSepC)) (mRep isDigitC 3 4))))))

/-! ### Tidied record types (`tidying.py`) -/

structure TidiedContact where
  contact_name : Option String := none
  address_line1 : Option String := none
  address_line2 : Option String := none
  address_city : Option String := none
  address_postcode : Option String := none
  telephone : Option String := none
  fax : Option String := none
  email : Option String := none
  website : Option String := none
deriving DecidableEq, Repr

structure TidiedAsset where
  unique_id : String
  owner_id : Option String
  description : String
  location : String
  category : String
  access_details : Option String
  contact : TidiedContact
deriving DecidableEq, Repr

/-- A raw record, i.e. the scraped dict restricted to the keys
`tidy_raw_record` reads. `none` stands for a key that is absent or has
value `None`. -/
structure RawRecord where
  uniqueID : Option String := none
  unique_id : Option String := none
  owner_id : Option String := none
  description : Option String := none
  location : Option String := none
  category : Option String := none
  access_details : Option String := none
  contact_name : Option String := none
  contact_address : Option String := none
  access_phone : Option String := none
  telephone_no : Option String := none
  fax_no : Option String := none
  email : Option String := none
  website : Option String := none
deriving DecidableEq, Repr

/-! ### `normalize_phone` -/

/-- Replace a leading `+44` by `0` (`re.sub(r"^\+44", "0", ·)`). -/
def subPlus44 (cs : List Char) : List Char :=
  if cs.take 3 = ['+', '4', '4'] then '0' :: cs.drop 3 else cs

/-- Replace a leading `0044` by `0` (`re.sub(r"^0044", "0", ·)`). -/
def sub0044 (cs : List Char) : List Char :=
  if cs.take 4 = ['0', '0', '4', '4'] then '0' :: cs.drop 4 else cs

def normalize_phone (phone : String) : String :=
  if phone = "" then "" else
  let cs := phone.data.filter (fun c => !(isPySpace c || c = '-'))
  let cs := subPlus44 cs
  let cs := sub0044 cs
  String.mk (cs.filter isDigitC)

/-! ### `extract_phone_from_address` -/

/-- Whether `suf` is a suffix of `cs` (Python `str.endswith`). -/
def endsWithL (cs suf : List Char) : Bool :=
  (cs.reverse.take suf.length) = suf.reverse

def extract_phone_from_address (address : String) : String × Option String :=
  if address = "" then (address, none) else
  let cs := address.data
  match (finditerM postcodeM cs).getLast? with
  | none =>
    match searchM phoneM cs with
    | some (s, e) =>
      let grp := sliceCs cs s e
      if endsWithL cs grp then
        (String.mk (rstripCommaSpace (cs.take s)), some (normalize_phone (String.mk grp)))
      else (address, none)
    | none => (address, none)
  | some (_, pe) =>
    let afterPostcode := cs.drop pe
    match searchM phoneM afterPostcode with
    | some (s, e) =>
      let firstPhone := normalize_phone (String.mk (sliceCs afterPostcode s e))
      (String.mk (rstripCommaSpace (cs.take pe)), some firstPhone)
    | none => (address, none)

/-! ### `parse_address` -/

structure ParsedAddress where
  line1 : Option String := none
  line2 : Option String := none
  city : Option String := none
  postcode : Option String := none
deriving DecidableEq, Repr

/-- `county_indicators` list from `parse_address`. -/
def countyIndicators : List String :=
  ["SHIRE", "YORKSHIRE", "LANCASHIRE", "CORNWALL", "DEVON", "DORSET",
   "SUFFOLK", "NORFOLK", "SUSSEX", "KENT", "ESSEX", "SURREY", "BERKSHIRE",
   "HAMPSHIRE", "WILTSHIRE", "SOMERSET", "GLOUCESTERSHIRE"]

/-- Whether `needle` occurs as a contiguous substring of `hay`. -/
def isSubstrL (needle : List Char) : List Char → Bool
  | [] => needle.length = 0
  | c :: t => (c :: t).take needle.length = needle || isSubstrL needle t

/-- Python `"X" in s` on uppercased text. -/
def containsSub (hay : List Char) (needle : String) : Bool :=
  isSubstrL needle.data hay

/-- Splitting step shared by the postcode removal and comma split of
`parse_address`: the postcode (first match, uppercased and stripped) and
the trimmed non-empty comma-separated parts of the text before it. -/
def addressPostcodeAndParts (cs : List Char) : Option String × List String :=
  let (rest, pc) :=
    match searchM postcodeM cs with
    | some (s, e) =>
      (rstripCommaSpace (cs.take s), some (String.mk (pyStrip (pyUpper (sliceCs cs s e)))))
    | none => (cs, none)
  let parts := ((String.mk rest).splitOn ",").map pyStripS |>.filter (fun p => p ≠ "")
  (pc, parts)

def parse_address (address : String) : ParsedAddress :=
  if address = "" then {} else
  let (pc, parts) := addressPostcodeAndParts address.data
  match parts with
  | [] => { postcode := pc }
  | [p1] => { line1 := some p1, postcode := pc }
  | [p1, p2] => { line1 := some p1, city := some p2, postcode := pc }
  | [p1, p2, p3] => { line1 := some p1, line2 := some p2, city := some p3, postcode := pc }
  | p1 :: rest =>
    let parts := p1 :: rest
    let lastPart := pyUpper ((parts.getLast?).getD "").data
    let isCounty := countyIndicators.any (fun c => containsSub lastPart c)
    if isCounty then
      { line1 := some p1,
        line2 := some (String.intercalate ", " ((parts.drop 1).take (parts.length - 3))),
        city := some (parts.getD (parts.length - 2) ""),
        postcode := pc }
    else
      { line1 := some p1,
        line2 := some (String.intercalate ", " ((parts.drop 1).take (parts.length - 2))),
        city := some ((parts.getLast?).getD ""),
        postcode := pc }

/-! ### `dedupe_phone` and `_clean_string` -/

def dedupe_phone (address_phone telephone_field access_phone : Option String) :
    Option String :=
  let candidates := [telephone_field, access_phone, address_phone]
  let normalized :=
    (candidates.filterMap (fun p => p.bind (fun s => if s = "" then none else some s))).map
      normalize_phone
  if normalized.isEmpty then none
  else
    match normalized.find? (fun ph => ph ≠ "" && 10 ≤ ph.length) with
    | some ph => some ph
    | none => normalized.head?

/-- `_clean_string` (string inputs; the pandas float/NaN branch does not
arise for the string-valued raw records modelled here). -/
def clean_string (value : Option String) : Option String :=
  match value with
  | none => none
  | some s => let t := pyStripS s; if t = "" then none else some t

/-! ### `tidy_raw_record` -/

def tidy_raw_record (raw : RawRecord) : TidiedAsset :=
  let contact_address := raw.contact_address.getD ""
  let pr := extract_phone_from_address contact_address
  let clean_address := pr.1
  let address_phone := pr.2
  let parsed := parse_address clean_address
  let telephone := dedupe_phone address_phone raw.telephone_no raw.access_phone
  let fax := normalize_phone (raw.fax_no.getD "")
  let contact : TidiedContact :=
    { contact_name := clean_string raw.contact_name,
      address_line1 := parsed.line1,
      address_line2 := parsed.line2,
      address_city := parsed.city,
      address_postcode := parsed.postcode,
      telephone := telephone.bind (fun t => if t = "" then none else some t),
      fax := if fax = "" then none else some fax,
      email := clean_string raw.email,
      website := clean_string raw.website }
  { unique_id := (raw.uniqueID.orElse (fun _ => raw.unique_id)).getD "",
    owner_id := clean_string raw.owner_id,
    description := (clean_string raw.description).getD "",
    location := (clean_string raw.location).getD "",
    category := (clean_string raw.category).getD "",
    access_details := clean_string raw.access_details,
    contact := contact }

/-! ### `compare_tidied_assets` -/

/-- The `simple_fields` name list. -/
def simpleFieldNames : List String :=
  ["owner_id", "description", "location", "category", "access_details"]

/-- The `contact_fields` name list. -/
def contactFieldNames : List String :=
  ["contact_name", "address_line1", "address_line2", "address_city",
   "address_postcode", "telephone", "fax", "email", "website"]

/-- `getattr` on a `TidiedAsset` for the simple field names (string values
injected into `Option` so that one type covers all compared fields). -/
def getattrSimple (a : TidiedAsset) : String → Option String
  | "owner_id" => a.owner_id
  | "description" => some a.description
  | "location" => some a.location
  | "category" => some a.category
  | "access_details" => a.access_details
  | _ => none

/-- `getattr` on a `TidiedContact`. -/
def getattrContact (c : TidiedContact) : String → Option String
  | "contact_name" => c.contact_name
  | "address_line1" => c.address_line1
  | "address_line2" => c.address_line2
  | "address_city" => c.address_city
  | "address_postcode" => c.address_postcode
  | "telephone" => c.telephone
  | "fax" => c.fax
  | "email" => c.email
  | "website" => c.website
  | _ => none

def compare_tidied_assets (old new : TidiedAsset) : List String :=
  simpleFieldNames.filter (fun f => getattrSimple old f ≠ getattrSimple new f) ++
    contactFieldNames.filter
      (fun f => getattrContact old.contact f ≠ getattrContact new.contact f)

/-! ### SCD2 state (`models.py`)

One `Asset` row per historical version of an entity, a `ChangeEvent` log
and the `SnapshotMetadata` table. Dates are `Nat`; database identity of a
row is its position in the `assets` list (standing in for the
primary-key/object identity through which `process_snapshot` mutates). -/

structure Asset where
  unique_id : String
  owner_id : Option String
  description : String
  location : String
  category : String
  access_details : Option String
  contact_name : Option String
  address_line1 : Option String
  address_line2 : Option String
  address_city : Option String
  address_postcode : Option String
  telephone : Option String
  fax : Option String
  email : Option String
  website : Option String
  valid_from : Nat
  valid_until : Option Nat
deriving DecidableEq, Repr

def defaultAsset : Asset :=
  { unique_id := "", owner_id := none, description := "", location := "",
    category := "", access_details := none, contact_name := none,
    address_line1 := none, address_line2 := none, address_city := none,
    address_postcode := none, telephone := none, fax := none, email := none,
    website := none, valid_from := 0, valid_until := none }

instance : Inhabited Asset := ⟨defaultAsset⟩

structure ChangeEvent where
  unique_id : String
  change_type : String
  change_date : Nat
  changed_fields : Option String := none
  summary : String
deriving DecidableEq, Repr

structure SnapshotMetadata where
  snapshot_date : Nat
  source : String
  asset_count : Nat
  added_count : Nat
  updated_count : Nat
  removed_count : Nat
deriving DecidableEq, Repr

structure Stats where
  added : Nat
  updated : Nat
  removed : Nat
  unchanged : Nat
deriving DecidableEq, Repr

/-- The database state a reconciliation pass reads and writes. -/
structure ReconState where
  assets : List Asset
  events : List ChangeEvent
  meta : List SnapshotMetadata
deriving DecidableEq, Repr

/-! ### `tidied_to_asset` / `asset_to_tidied` (`import_historical.py`) -/

def tidied_to_asset (tidied : TidiedAsset) (valid_from : Nat) : Asset :=
  { unique_id := tidied.unique_id,
    owner_id := tidied.owner_id,
    description := tidied.description,
    location := tidied.location,
    category := tidied.category,
    access_details := tidied.access_details,
    contact_name := tidied.contact.contact_name,
    address_line1 := tidied.contact.address_line1,
    address_line2 := tidied.contact.address_line2,
    address_city := tidied.contact.address_city,
    address_postcode := tidied.contact.address_postcode,
    telephone := tidied.contact.telephone,
    fax := tidied.contact.fax,
    email := tidied.contact.email,
    website := tidied.contact.website,
    valid_from := valid_from,
    valid_until := none }

def asset_to_tidied (asset : Asset) : TidiedAsset :=
  { unique_id := asset.unique_id,
    owner_id := asset.owner_id,
    description := asset.description,
    location := asset.location,
    category := asset.category,
    access_details := asset.access_details,
    contact :=
      { contact_name := asset.contact_name,
        address_line1 := asset.address_line1,
        address_line2 := asset.address_line2,
        address_city := asset.address_city,
        address_postcode := asset.address_postcode,
        telephone := asset.telephone,
        fax := asset.fax,
        email := asset.email,
        website := asset.website } }

/-! ### Python dict as an association list (insertion order, last
assignment wins in place) -/

/-- Python `d[k] = v`: replace the value at an existing key in place,
otherwise append the pair. -/
def upsert (k : String) (v : α) : List (String × α) → List (String × α)
  | [] => [(k, v)]
  | (k', v') :: t => if k' = k then (k, v) :: t else (k', v') :: upsert k v t

/-- Python `d.get(k)` / `d[k]`. -/
def lookupA (m : List (String × α)) (k : String) : Option α :=
  match m with
  | [] => none
  | (k', v) :: t => if k' = k then some v else lookupA t k

/-- Keys in insertion order. -/
def keysA (m : List (String × α)) : List String := m.map (fun p => p.1)

/-! ### `process_snapshot` (`process_snapshot.py`) -/

/-- `get_current_assets`: build `{a.unique_id: a}` over the
`valid_until IS NULL` rows in table order, the value being the row's
position (the dict holds the row object; on duplicate live unique_ids the
later row wins, exactly as in the Python dict comprehension). -/
def gatherLive : Nat → List Asset → List (String × Nat) → List (String × Nat)
  | _, [], m => m
  | i, a :: rest, m =>
    gatherLive (i + 1) rest
      (if a.valid_until = none then upsert a.unique_id i m else m)

def get_current_assets (assets : List Asset) : List (String × Nat) :=
  gatherLive 0 assets []

/-- The `tidied_map` dict: tidy every raw record and keep those with a
non-empty `unique_id`, later records overwriting earlier ones. -/
def buildTidied : List RawRecord → List (String × TidiedAsset) →
    List (String × TidiedAsset)
  | [], m => m
  | r :: rest, m =>
    let t := tidy_raw_record r
    buildTidied rest (if t.unique_id = "" then m else upsert t.unique_id t m)

def tidiedMap (records : List RawRecord) : List (String × TidiedAsset) :=
  buildTidied records []

/-- Row at a position (total, with an irrelevant default). -/
def getAsset (assets : List Asset) (i : Nat) : Asset :=
  assets.getD i defaultAsset

/-- `new_ids` (present in the batch). -/
def newIds (records : List RawRecord) : List String := keysA (tidiedMap records)

/-- `current_ids` (live in the table). -/
def currentIds (assets : List Asset) : List String :=
  keysA (get_current_assets assets)

/-- `added_ids = new_ids - current_ids`. -/
def addedIds (assets : List Asset) (records : List RawRecord) : List String :=
  (newIds records).filter (fun u => u ∉ currentIds assets)

/-- `removed_ids = current_ids - new_ids`. -/
def removedIds (assets : List Asset) (records : List RawRecord) : List String :=
  (currentIds assets).filter (fun u => u ∉ newIds records)

/-- `common_ids = current_ids & new_ids`. -/
def commonIds (assets : List Asset) (records : List RawRecord) : List String :=
  (currentIds assets).filter (fun u => u ∈ newIds records)

/-- The `changed_fields` diff computed for one common id. -/
def diffOf (assets : List Asset) (records : List RawRecord) (u : String) :
    List String :=
  match lookupA (get_current_assets assets) u, lookupA (tidiedMap records) u with
  | some i, some t => compare_tidied_assets (asset_to_tidied (getAsset assets i)) t
  | _, _ => []

/-- Common ids whose diff is non-empty (the update category). -/
def updatedIds (assets : List Asset) (records : List RawRecord) : List String :=
  (commonIds assets records).filter (fun u => diffOf assets records u ≠ [])

/-- Ids whose live row gets `valid_until` set: removals then updates. -/
def closedUidList (assets : List Asset) (records : List RawRecord) : List String :=
  removedIds assets records ++ updatedIds assets records

/-- Row positions whose live row gets closed. -/
def closeIdxs (assets : List Asset) (records : List RawRecord) : List Nat :=
  (closedUidList assets records).filterMap (lookupA (get_current_assets assets))

/-- Set `valid_until = snapshot_date` on the rows at the given positions
(`i` is the position of the head of the remaining list). -/
def closeFrom (d : Nat) (idxs : List Nat) : Nat → List Asset → List Asset
  | _, [] => []
  | i, a :: rest =>
    (if i ∈ idxs then { a with valid_until := some d } else a) ::
      closeFrom d idxs (i + 1) rest

/-- Python `s[:100]`. -/
def pyTake (n : Nat) (s : String) : String := String.mk (s.data.take n)

/-- Summary text of an added/removed event in `process_snapshot.py`. -/
def descSummary (verb : String) (description : String) : String :=
  verb ++ (if description = "" then "No description" else pyTake 100 description)

/-- New rows opened for a list of ids, in list order. -/
def newRowsFor (records : List RawRecord) (d : Nat) (ids : List String) :
    List Asset :=
  ids.filterMap (fun u => (lookupA (tidiedMap records) u).map
    (fun t => tidied_to_asset t d))

/-- Change events for additions. -/
def addedEvents (records : List RawRecord) (d : Nat) (ids : List String) :
    List ChangeEvent :=
  ids.filterMap (fun u => (lookupA (tidiedMap records) u).map (fun t =>
    { unique_id := u, change_type := "added", change_date := d,
      changed_fields := none,
      summary := descSummary "Asset added: " t.description }))

/-- Change events for removals. -/
def removedEvents (assets : List Asset) (d : Nat) (ids : List String) :
    List ChangeEvent :=
  ids.filterMap (fun u => (lookupA (get_current_assets assets) u).map (fun i =>
    { unique_id := u, change_type := "removed", change_date := d,
      changed_fields := none,
      summary := descSummary "Asset removed: " (getAsset assets i).description }))

/-- Change events for updates. -/
def updatedEvents (assets : List Asset) (records : List RawRecord) (d : Nat)
    (ids : List String) : List ChangeEvent :=
  ids.map (fun u =>
    let changed := diffOf assets records u
    { unique_id := u, change_type := "updated", change_date := d,
      changed_fields := some (String.intercalate "," changed),
      summary := "Fields changed: " ++ String.intercalate ", " (changed.take 5) })

/-- One reconciliation pass (`process_snapshot`, non-dry-run): returns the
mutated state and the added/updated/removed/unchanged counts. An empty raw
batch returns the zero stats with the state untouched (the Python function
logs an error and returns early). -/
def process_snapshot (st : ReconState) (records : List RawRecord) (d : Nat) :
    ReconState × Stats :=
  if records.isEmpty then
    (st, { added := 0, updated := 0, removed := 0, unchanged := 0 })
  else
    let added := addedIds st.assets records
    let removed := removedIds st.assets records
    let common := commonIds st.assets records
    let updated := updatedIds st.assets records
    let assets' :=
      closeFrom d (closeIdxs st.assets records) 0 st.assets ++
        newRowsFor records d added ++ newRowsFor records d updated
    let events' :=
      st.events ++ addedEvents records d added ++
        removedEvents st.assets d removed ++
        updatedEvents st.assets records d updated
    ({ assets := assets', events := events', meta := st.meta },
     { added := added.length, updated := updated.length,
       removed := removed.length,
       unchanged := (common.filter (fun u => diffOf st.assets records u = [])).length })

/-- Whether a `SnapshotMetadata` row exists for the date. -/
def hasSnapshotRun (st : ReconState) (d : Nat) : Bool :=
  st.meta.any (fun m => m.snapshot_date = d)

/-- The `main` entry point of `process_snapshot.py` without `--dry-run`:
the idempotency guard (`sys.exit(1)` when the date already has a
`SnapshotMetadata` row, before any mutation), then the pass, then the
`SnapshotMetadata` row recording the pass. The state is returned alongside
the outcome; on the guard error it is the unchanged input state. -/
def main_process (st : ReconState) (records : List RawRecord) (d : Nat) :
    ReconState × Except String Stats :=
  if hasSnapshotRun st d then
    (st, Except.error "Snapshot already processed")
  else
    let r := process_snapshot st records d
    ({ r.1 with meta := r.1.meta ++
        [{ snapshot_date := d, source := "scrape",
           asset_count := records.length, added_count := r.2.added,
           updated_count := r.2.updated, removed_count := r.2.removed }] },
     Except.ok r.2)

/-! ### The fixed comparison list of the differ, as the spec states it -/

/-- The compared field names, in the order of `compare_tidied_assets`'s
fixed comparison lists. -/
def comparedFieldNames : List String :=
  ["owner_id", "description", "location", "category", "access_details",
   "contact_name", "address_line1", "address_line2", "address_city",
   "address_postcode", "telephone", "fax", "email", "website"]

/-- Value of a compared field of a `TidiedAsset`, written from the spec's
field list (string-typed fields injected into `Option`). -/
def tidiedFieldValue (a : TidiedAsset) : String → Option String
  | "owner_id" => a.owner_id
  | "description" => some a.description
  | "location" => some a.location
  | "category" => some a.category
  | "access_details" => a.access_details
  | "contact_name" => a.contact.contact_name
  | "address_line1" => a.contact.address_line1
  | "address_line2" => a.contact.address_line2
  | "address_city" => a.contact.address_city
  | "address_postcode" => a.contact.address_postcode
  | "telephone" => a.contact.telephone
  | "fax" => a.contact.fax
  | "email" => a.contact.email
  | "website" => a.contact.website
  | _ => none

lemma compare_eq_spec_filter (old new : TidiedAsset) :
    compare_tidied_assets old new =
      comparedFieldNames.filter
        (fun f => tidiedFieldValue old f ≠ tidiedFieldValue new f) := by
  have hsplit : comparedFieldNames = simpleFieldNames ++ contactFieldNames := rfl
  have hs : simpleFieldNames.filter
        (fun f => getattrSimple old f ≠ getattrSimple new f) =
      simpleFieldNames.filter
        (fun f => tidiedFieldValue old f ≠ tidiedFieldValue new f) :=
    List.filter_congr (fun f hf => by fin_cases hf <;> rfl)
  have hc : contactFieldNames.filter
        (fun f => getattrContact old.contact f ≠ getattrContact new.contact f) =
      contactFieldNames.filter
        (fun f => tidiedFieldValue old f ≠ tidiedFieldValue new f) :=
    List.filter_congr (fun f hf => by fin_cases hf <;> rfl)
  rw [hsplit, List.filter_append, compare_tidied_assets, hs, hc]

lemma compare_eq_nil_iff (old new : TidiedAsset) :
    compare_tidied_assets old new = [] ↔
      ∀ f ∈ comparedFieldNames, tidiedFieldValue old f = tidiedFieldValue new f := by
  rw [compare_eq_spec_filter, List.filter_eq_nil_iff]
  simp

lemma compare_self (a : TidiedAsset) : compare_tidied_assets a a = [] := by
  rw [compare_eq_nil_iff]
  intro f _
  rfl

/-- Two tidied assets with the same `unique_id` and equal compared fields
are equal. -/
lemma tidied_ext (a b : TidiedAsset) (hid : a.unique_id = b.unique_id)
    (h : ∀ f ∈ comparedFieldNames, tidiedFieldValue a f = tidiedFieldValue b f) :
    a = b := by
  obtain ⟨ida, oa, da, la, ca, aa, ⟨na, l1a, l2a, cta, pca, ta, fa, ea, wa⟩⟩ := a
  obtain ⟨idb, ob, db, lb, cb, ab, ⟨nb, l1b, l2b, ctb, pcb, tb, fb, eb, wb⟩⟩ := b
  have h1 := h "owner_id" (by simp [comparedFieldNames])
  have h2 := h "description" (by simp [comparedFieldNames])
  have h3 := h "location" (by simp [comparedFieldNames])
  have h4 := h "category" (by simp [comparedFieldNames])
  have h5 := h "access_details" (by simp [comparedFieldNames])
  have h6 := h "contact_name" (by simp [comparedFieldNames])
  have h7 := h "address_line1" (by simp [comparedFieldNames])
  have h8 := h "address_line2" (by simp [comparedFieldNames])
  have h9 := h "address_city" (by simp [comparedFieldNames])
  have h10 := h "address_postcode" (by simp [comparedFieldNames])
  have h11 := h "telephone" (by simp [comparedFieldNames])
  have h12 := h "fax" (by simp [comparedFieldNames])
  have h13 := h "email" (by simp [comparedFieldNames])
  have h14 := h "website" (by simp [comparedFieldNames])
  simp only [tidiedFieldValue, Option.some_inj] at h1 h2 h3 h4 h5 h6 h7 h8 h9 h10 h11 h12 h13 h14
  simp_all

/-- C6 — the differ returns exactly the changed compared fields in the
fixed comparison order, is empty iff all compared fields agree, and is
empty on `tidy(r)` against itself. -/
theorem C6_differ_exact_changed_fields :
    (∀ old new : TidiedAsset,
      compare_tidied_assets old new =
        comparedFieldNames.filter
          (fun f => tidiedFieldValue old f ≠ tidiedFieldValue new f) ∧
      (compare_tidied_assets old new = [] ↔
        ∀ f ∈ comparedFieldNames,
          tidiedFieldValue old f = tidiedFieldValue new f)) ∧
    ∀ raw : RawRecord,
      compare_tidied_assets (tidy_raw_record raw) (tidy_raw_record raw) = [] :=
  ⟨fun old new => ⟨compare_eq_spec_filter old new, compare_eq_nil_iff old new⟩,
   fun raw => compare_self (tidy_raw_record raw)⟩

/-! ### C7: phone deduplication -/

/-- The amended deduplication contract: first candidate (priority order:
telephone field, access phone, address phone) whose normalized form has at
least 10 digits; otherwise the normalized form of the first non-empty
source candidate (which may be the empty string); `none` when every
source is empty or absent. -/
def dedupe_phone_amended (address_phone telephone_field access_phone : Option String) :
    Option String :=
  let sources := [telephone_field, access_phone, address_phone]
  let cands := sources.filterMap (fun p => p.bind (fun s => if s = "" then none else some s))
  match (cands.map normalize_phone).find? (fun ph => 10 ≤ ph.length) with
  | some ph => some ph
  | none => (cands.head?).map normalize_phone

lemma find_pred_eq (l : List String) :
    l.find? (fun ph => ph ≠ "" && 10 ≤ ph.length) =
      l.find? (fun ph => 10 ≤ ph.length) := by
  have h : (fun ph : String => (ph ≠ "" && 10 ≤ ph.length : Bool)) =
      (fun ph : String => (10 ≤ ph.length : Bool)) := by
    funext ph
    by_cases h10 : 10 ≤ ph.length
    · have hne : ph ≠ "" := by
        intro he
        rw [he] at h10
        simp at h10
      simp [h10, hne]
    · simp [h10]
  rw [h]

lemma dedupe_core_eq (cands : List String) :
    (let normalized := cands.map normalize_phone
     if normalized.isEmpty then none
     else
       match normalized.find? (fun ph => ph ≠ "" && 10 ≤ ph.length) with
       | some ph => some ph
       | none => normalized.head?) =
    (match (cands.map normalize_phone).find? (fun ph => 10 ≤ ph.length) with
     | some ph => some ph
     | none => (cands.head?).map normalize_phone) := by
  cases cands with
  | nil => simp
  | cons c cs =>
    simp only [List.map_cons, List.isEmpty_cons, Bool.false_eq_true, if_false,
      find_pred_eq, List.head?_cons, Option.map_some]
    rfl

/-- C7 counterexample — with sources telephone `"abc"` and access phone
`"12345"` no candidate reaches 10 digits and the first non-empty
normalized candidate is `"12345"`, yet `dedupe_phone` returns the empty
string (the normalization of the first non-empty source). -/
theorem C7_counterexample :
    dedupe_phone none (some "abc") (some "12345") = some "" ∧
    normalize_phone "abc" = "" ∧
    normalize_phone "12345" = "12345" ∧
    ¬ 10 ≤ (normalize_phone "12345").length :=
  ⟨rfl, rfl, rfl, by decide⟩

/-- C7 (amended) — `dedupe_phone` returns the first candidate, in priority
order telephone field / access phone / address phone, whose normalized
form has at least 10 digits; failing that, the normalized form of the
first non-empty source candidate (possibly the empty string); `none` when
all three sources are empty or absent. -/
theorem C7_dedupe_phone_amended (address_phone telephone_field access_phone : Option String) :
    dedupe_phone address_phone telephone_field access_phone =
      dedupe_phone_amended address_phone telephone_field access_phone :=
  dedupe_core_eq _

/-! ### C8: phone extraction from an address -/

/-- Modelled from the spec's wording: locate the last UK-postcode
occurrence; when a phone-shaped token occurs after it, return the first
such token normalized and the input truncated just after the postcode
with trailing commas and spaces stripped; with no postcode, extract the
(first) phone token only when its text sits at the very end of the
string. -/
def extract_phone_spec (address : String) : String × Option String :=
  let cs := address.data
  match (finditerM postcodeM cs).getLast? with
  | some pm =>
    match searchM phoneM (cs.drop pm.2) with
    | some (s, e) =>
      (String.mk (rstripCommaSpace (cs.take pm.2)),
       some (normalize_phone (String.mk (sliceCs (cs.drop pm.2) s e))))
    | none => (address, none)
  | none =>
    match searchM phoneM cs with
    | some (s, e) =>
      if endsWithL cs (sliceCs cs s e) then
        (String.mk (rstripCommaSpace (cs.take s)),
         some (normalize_phone (String.mk (sliceCs cs s e))))
      else (address, none)
    | none => (address, none)

lemma normalize_phone_all_digits (s : String) :
    (normalize_phone s).data.all isDigitC = true := by
  unfold normalize_phone
  split
  · rfl
  · rw [List.all_eq_true]
    intro c hc
    rw [show (String.mk ((sub0044 (subPlus44 (s.data.filter
        (fun c => !(isPySpace c || c = '-'))))).filter isDigitC)).data =
          ((sub0044 (subPlus44 (s.data.filter
        (fun c => !(isPySpace c || c = '-'))))).filter isDigitC) from rfl] at hc
    exact (List.mem_filter.mp hc).2

lemma extract_eq_spec (address : String) :
    extract_phone_from_address address = extract_phone_spec address := by
  by_cases h : address = ""
  · subst h
    rfl
  · unfold extract_phone_from_address extract_phone_spec
    rw [if_neg h]
    cases hpc : (finditerM postcodeM address.data).getLast? with
    | none =>
      cases hph : searchM phoneM address.data with
      | none => simp only [hpc, hph]
      | some se =>
        obtain ⟨s, e⟩ := se
        simp only [hpc, hph]
    | some pm =>
      obtain ⟨ps, pe⟩ := pm
      cases hph : searchM phoneM (address.data.drop pe) with
      | none => simp only [hpc, hph]
      | some se =>
        obtain ⟨s, e⟩ := se
        simp only [hpc, hph]

lemma extract_phone_digits (address a p : String)
    (h : extract_phone_from_address address = (a, some p)) :
    p.data.all isDigitC = true := by
  rw [extract_eq_spec] at h
  unfold extract_phone_spec at h
  cases hpc : (finditerM postcodeM address.data).getLast? with
  | none =>
    simp only [hpc] at h
    cases hph : searchM phoneM address.data with
    | none =>
      simp only [hph] at h
      exact absurd (congrArg Prod.snd h) (by simp)
    | some se =>
      obtain ⟨s, e⟩ := se
      simp only [hph] at h
      split at h
      · simp only [Prod.mk.injEq, Option.some.injEq] at h
        exact h.2 ▸ normalize_phone_all_digits _
      · simp at h
  | some pm =>
    obtain ⟨ps, pe⟩ := pm
    simp only [hpc] at h
    cases hph : searchM phoneM (address.data.drop pe) with
    | none =>
      simp only [hph] at h
      exact absurd (congrArg Prod.snd h) (by simp)
    | some se =>
      obtain ⟨s, e⟩ := se
      simp only [hph] at h
      simp only [Prod.mk.injEq, Option.some.injEq] at h
      exact h.2 ▸ normalize_phone_all_digits _

/-- C8 — `extract_phone_from_address` implements the last-postcode /
first-following-phone contract (spec-modelled as `extract_phone_spec`),
any phone it returns is digits-only, and it maps the spec's example
`"LONDON, EC4A 1LT, 0207 831 9222"` to `("LONDON, EC4A 1LT", "02078319222")`. -/
theorem C8_extract_phone_from_address :
    (∀ address : String,
      extract_phone_from_address address = extract_phone_spec address) ∧
    (∀ address a p : String,
      extract_phone_from_address address = (a, some p) →
        p.data.all isDigitC = true) ∧
    extract_phone_from_address "LONDON, EC4A 1LT, 0207 831 9222" =
      ("LONDON, EC4A 1LT", some "02078319222") := by
  exact ⟨extract_eq_spec, extract_phone_digits, by rfl⟩

/-! ### C9: address parsing policy -/

/-- The spec's fixed county-substring list (as the spec spells it). -/
def countyNamesSpec : List String :=
  ["Shire", "Yorkshire", "Lancashire", "Cornwall", "Devon", "Dorset",
   "Suffolk", "Norfolk", "Sussex", "Kent", "Essex", "Surrey", "Berkshire",
   "Hampshire", "Wiltshire", "Somerset", "Gloucestershire"]

/-- Modelled from the spec's wording: after extracting and removing the
postcode, split on commas into trimmed non-empty parts and assign by part
count — 1 part is line1 only; 2 parts line1+city; 3 parts
line1+line2+city; 4 or more parts take the first as line1 and, when the
last part contains a county substring (case-insensitively), discard it,
take the second-to-last as city and join the parts between as line2,
otherwise take the last as city and join the parts between as line2. -/
def parse_address_spec (address : String) : ParsedAddress :=
  if address = "" then {} else
  let (pc, parts) := addressPostcodeAndParts address.data
  match parts with
  | [] => { postcode := pc }
  | [p1] => { line1 := some p1, postcode := pc }
  | [p1, p2] => { line1 := some p1, city := some p2, postcode := pc }
  | [p1, p2, p3] =>
    { line1 := some p1, line2 := some p2, city := some p3, postcode := pc }
  | p1 :: rest =>
    let parts := p1 :: rest
    let lastP := (parts.getLast?).getD ""
    if countyNamesSpec.any (fun c => isSubstrL (pyUpper c.data) (pyUpper lastP.data)) then
      { line1 := some p1,
        line2 := some (String.intercalate ", " ((parts.dropLast.dropLast).drop 1)),
        city := parts.dropLast.getLast?,
        postcode := pc }
    else
      { line1 := some p1,
        line2 := some (String.intercalate ", " (parts.dropLast.drop 1)),
        city := some lastP,
        postcode := pc }

lemma county_cond_eq (cs : List Char) :
    countyIndicators.any (fun c => containsSub (pyUpper cs) c) =
      countyNamesSpec.any (fun c => isSubstrL (pyUpper c.data) (pyUpper cs)) := by
  have h : countyIndicators = countyNamesSpec.map (fun c => String.mk (pyUpper c.data)) := by
    decide
  rw [h, List.any_map]
  rfl

lemma dropLast_dropLast_drop (l : List α) :
    (l.dropLast.dropLast).drop 1 = (l.drop 1).take (l.length - 3) := by
  rw [List.dropLast_eq_take, List.dropLast_eq_take, List.take_take,
    List.length_take, List.drop_take]
  congr 1
  omega

lemma dropLast_drop (l : List α) :
    l.dropLast.drop 1 = (l.drop 1).take (l.length - 2) := by
  rw [List.dropLast_eq_take, List.drop_take]
  congr 1

lemma dropLast_getLast?_eq_getD (l : List String) (h : 2 ≤ l.length) :
    l.dropLast.getLast? = some (l.getD (l.length - 2) "") := by
  rw [List.getLast?_eq_getElem?, List.length_dropLast, List.dropLast_eq_take,
    List.getElem?_take, if_pos (by omega), List.getD_eq_getElem?_getD]
  have h1 : l.length - 1 - 1 = l.length - 2 := by omega
  rw [h1, List.getElem?_eq_getElem (show l.length - 2 < l.length by omega)]
  rfl

/-- C9 — `parse_address` implements the spec's by-part-count assignment
policy (spec-modelled as `parse_address_spec`). -/
theorem C9_parse_address_policy (address : String) :
    parse_address address = parse_address_spec address := by
  by_cases h : address = ""
  · subst h
    rfl
  · unfold parse_address parse_address_spec
    rw [if_neg h, if_neg h]
    cases hpp : addressPostcodeAndParts address.data with
    | mk pc parts =>
      rcases parts with _ | ⟨p1, _ | ⟨p2, _ | ⟨p3, _ | ⟨p4, rest⟩⟩⟩⟩
      · rfl
      · rfl
      · rfl
      · rfl
      · show (if countyIndicators.any _ then _ else _) = if countyNamesSpec.any _ then _ else _
        rw [county_cond_eq]
        have hlen : 2 ≤ (p1 :: p2 :: p3 :: p4 :: rest).length := by
          simp
        split
        · rw [dropLast_dropLast_drop, dropLast_getLast?_eq_getD _ hlen]
        · rw [dropLast_drop]

/-! ### C2 and C3: empty-batch handling and the idempotency guard -/

/-- C2 — failing input for the empty-batch claim: on an empty raw batch
(here against the empty starting state, date 5) the non-dry-run pipeline
does not abort; it succeeds with zero counts and records a
`SnapshotMetadata` row for the date, mutating state. The claim requires a
pipeline-fatal failure with no `SnapshotMetadata` row. -/
theorem C2_empty_batch_records_metadata :
    main_process { assets := [], events := [], meta := [] } [] 5 =
      ({ assets := [], events := [],
         meta := [{ snapshot_date := 5, source := "scrape", asset_count := 0,
                    added_count := 0, updated_count := 0, removed_count := 0 }] },
       Except.ok { added := 0, updated := 0, removed := 0, unchanged := 0 }) := rfl

/-- C3 — a snapshot date that already has a `SnapshotMetadata` row is
rejected with an error before any mutation: the assets, events and
metadata tables are returned exactly as they were. -/
theorem C3_duplicate_date_rejected (st : ReconState) (records : List RawRecord)
    (d : Nat) (h : hasSnapshotRun st d = true) :
    main_process st records d = (st, Except.error "Snapshot already processed") := by
  unfold main_process
  rw [if_pos h]

/-- C3 witness: a state whose metadata already covers date 3. -/
theorem C3_duplicate_date_rejected_witness :
    main_process
        { assets := [], events := [],
          meta := [{ snapshot_date := 3, source := "scrape", asset_count := 7,
                     added_count := 7, updated_count := 0, removed_count := 0 }] }
        [{ uniqueID := some "A1" }] 3 =
      ({ assets := [], events := [],
         meta := [{ snapshot_date := 3, source := "scrape", asset_count := 7,
                    added_count := 7, updated_count := 0, removed_count := 0 }] },
       Except.error "Snapshot already processed") :=
  C3_duplicate_date_rejected _ _ _ (by decide)

/-! ### Association-list (Python dict) lemmas -/

lemma mem_upsert {m : List (String × α)} {p : String × α} (k : String) (v : α)
    (h : p ∈ upsert k v m) : p = (k, v) ∨ p ∈ m := by
  induction m with
  | nil =>
    simp [upsert] at h
    exact Or.inl h
  | cons q t ih =>
    obtain ⟨k', v'⟩ := q
    unfold upsert at h
    split at h
    · rcases List.mem_cons.mp h with h1 | h1
      · exact Or.inl h1
      · exact Or.inr (List.mem_cons_of_mem _ h1)
    · rcases List.mem_cons.mp h with h1 | h1
      · exact Or.inr (h1 ▸ List.mem_cons_self _ _)
      · rcases ih h1 with h2 | h2
        · exact Or.inl h2
        · exact Or.inr (List.mem_cons_of_mem _ h2)

lemma keysA_upsert (m : List (String × α)) (k : String) (v : α) (k' : String) :
    k' ∈ keysA (upsert k v m) ↔ k' = k ∨ k' ∈ keysA m := by
  induction m with
  | nil => simp [upsert, keysA]
  | cons q t ih =>
    obtain ⟨k1, v1⟩ := q
    unfold upsert
    split
    · rename_i hk
      subst hk
      simp [keysA]
    · simp only [keysA, List.map_cons, List.mem_cons] at ih ⊢
      constructor
      · rintro (h | h)
        · exact Or.inr (Or.inl h)
        · rcases ih.mp h with h1 | h1
          · exact Or.inl h1
          · exact Or.inr (Or.inr h1)
      · rintro (h | h | h)
        · exact Or.inr (ih.mpr (Or.inl h))
        · exact Or.inl h
        · exact Or.inr (ih.mpr (Or.inr h))

lemma keysA_upsert_nodup (m : List (String × α)) (k : String) (v : α)
    (h : (keysA m).Nodup) : (keysA (upsert k v m)).Nodup := by
  induction m with
  | nil => simp [upsert, keysA]
  | cons q t ih =>
    obtain ⟨k1, v1⟩ := q
    simp only [keysA, List.map_cons, List.nodup_cons] at h
    unfold upsert
    split
    · rename_i hk
      subst hk
      simp only [keysA, List.map_cons, List.nodup_cons]
      exact h
    · rename_i hk
      simp only [keysA, List.map_cons, List.nodup_cons]
      refine ⟨?_, ih h.2⟩
      intro hmem
      rcases (keysA_upsert t k v k1).mp hmem with h1 | h1
      · exact hk h1
      · exact h.1 h1

lemma lookupA_mem {m : List (String × α)} {k : String} {v : α}
    (h : lookupA m k = some v) : (k, v) ∈ m := by
  induction m with
  | nil => simp [lookupA] at h
  | cons q t ih =>
    obtain ⟨k1, v1⟩ := q
    unfold lookupA at h
    split at h
    · rename_i hk
      injection h with hv
      subst hk hv
      exact List.mem_cons_self _ _
    · exact List.mem_cons_of_mem _ (ih h)

lemma lookupA_isSome_of_mem_keys {m : List (String × α)} {k : String}
    (h : k ∈ keysA m) : ∃ v, lookupA m k = some v := by
  induction m with
  | nil => simp [keysA] at h
  | cons q t ih =>
    obtain ⟨k1, v1⟩ := q
    by_cases hk : k1 = k
    · exact ⟨v1, by simp [lookupA, hk]⟩
    · simp only [keysA, List.map_cons, List.mem_cons] at h
      rcases h with h | h
      · exact absurd h.symm hk
      · obtain ⟨v, hv⟩ := ih h
        exact ⟨v, by simp [lookupA, hk, hv]⟩

lemma mem_keys_of_lookupA {m : List (String × α)} {k : String} {v : α}
    (h : lookupA m k = some v) : k ∈ keysA m := by
  have := lookupA_mem h
  exact List.mem_map.mpr ⟨(k, v), this, rfl⟩

/-! ### `gatherLive` invariants -/

lemma gatherLive_master (P : String × Nat → Prop) :
    ∀ (rest : List Asset) (i : Nat) (m : List (String × Nat)),
      (∀ p ∈ m, P p) →
      (∀ j (hj : j < rest.length),
        (rest[j]).valid_until = none → P ((rest[j]).unique_id, i + j)) →
      ∀ p ∈ gatherLive i rest m, P p := by
  intro rest
  induction rest with
  | nil =>
    intro i m hm _ p hp
    exact hm p hp
  | cons a t ih =>
    intro i m hm hlive p hp
    unfold gatherLive at hp
    refine ih (i + 1) _ ?_ ?_ p hp
    · intro q hq
      split at hq
      · rcases mem_upsert _ _ hq with h1 | h1
        · subst h1
          have := hlive 0 (by simp) (by assumption)
          simpa using this
        · exact hm q h1
      · exact hm q hq
    · intro j hj hlj
      have := hlive (j + 1) (by simpa using Nat.succ_lt_succ hj) (by simpa using hlj)
      simp only [List.getElem_cons_succ] at this
      have harith : i + (j + 1) = i + 1 + j := by omega
      rw [harith] at this
      exact this

lemma gatherLive_keys_mono :
    ∀ (rest : List Asset) (i : Nat) (m : List (String × Nat)) (k : String),
      k ∈ keysA m → k ∈ keysA (gatherLive i rest m) := by
  intro rest
  induction rest with
  | nil =>
    intro i m k h
    exact h
  | cons a t ih =>
    intro i m k h
    unfold gatherLive
    refine ih (i + 1) _ k ?_
    split
    · exact (keysA_upsert m a.unique_id i k).mpr (Or.inr h)
    · exact h

lemma gatherLive_keys_complete :
    ∀ (rest : List Asset) (i : Nat) (m : List (String × Nat)) (j : Nat)
      (hj : j < rest.length),
      (rest[j]).valid_until = none →
      (rest[j]).unique_id ∈ keysA (gatherLive i rest m) := by
  intro rest
  induction rest with
  | nil =>
    intro i m j hj
    simp at hj
  | cons a t ih =>
    intro i m j hj hlive
    unfold gatherLive
    cases j with
    | zero =>
      simp only [List.getElem_cons_zero] at hlive ⊢
      refine gatherLive_keys_mono t (i + 1) _ _ ?_
      rw [if_pos hlive]
      exact (keysA_upsert m a.unique_id i a.unique_id).mpr (Or.inl rfl)
    | succ j' =>
      simp only [List.getElem_cons_succ] at hlive ⊢
      exact ih (i + 1) _ j' (by simpa using Nat.lt_of_succ_lt_succ hj) hlive

lemma gatherLive_keys_nodup :
    ∀ (rest : List Asset) (i : Nat) (m : List (String × Nat)),
      (keysA m).Nodup → (keysA (gatherLive i rest m)).Nodup := by
  intro rest
  induction rest with
  | nil =>
    intro i m h
    exact h
  | cons a t ih =>
    intro i m h
    unfold gatherLive
    refine ih (i + 1) _ ?_
    split
    · exact keysA_upsert_nodup m _ _ h
    · exact h

/-! ### Derived facts about `get_current_assets` -/

lemma getAsset_eq {A : List Asset} {j : Nat} (h : j < A.length) :
    getAsset A j = A[j] := by
  unfold getAsset
  rw [List.getD_eq_getElem?_getD, List.getElem?_eq_getElem h]
  rfl

/-- Soundness: the current-assets dict maps `u` to the position of a live
row whose `unique_id` is `u`. -/
lemma cs_sound {A : List Asset} {u : String} {i : Nat}
    (h : lookupA (get_current_assets A) u = some i) :
    i < A.length ∧ (getAsset A i).unique_id = u ∧
      (getAsset A i).valid_until = none := by
  have hmem := lookupA_mem h
  have := gatherLive_master
    (fun p => p.2 < A.length ∧ (getAsset A p.2).unique_id = p.1 ∧
      (getAsset A p.2).valid_until = none)
    A 0 [] (by simp)
    (fun j hj hlive => by
      refine ⟨by simpa using hj, ?_, ?_⟩
      · rw [Nat.zero_add, getAsset_eq (by simpa using hj)]
      · rw [Nat.zero_add, getAsset_eq (by simpa using hj)]
        exact hlive)
    (u, i) hmem
  exact this

/-- Completeness: every live row's `unique_id` is a key of the
current-assets dict. -/
lemma cs_complete {A : List Asset} {j : Nat} (hj : j < A.length)
    (hlive : (A[j]).valid_until = none) :
    (A[j]).unique_id ∈ currentIds A := by
  exact gatherLive_keys_complete A 0 [] j hj hlive

lemma currentIds_nodup (A : List Asset) : (currentIds A).Nodup := by
  exact gatherLive_keys_nodup A 0 [] (by simp [keysA])

/-! ### `buildTidied` invariants -/

lemma buildTidied_master (Q : String × TidiedAsset → Prop)
    (hins : ∀ r : RawRecord, Q ((tidy_raw_record r).unique_id, tidy_raw_record r)) :
    ∀ (rs : List RawRecord) (m : List (String × TidiedAsset)),
      (∀ p ∈ m, Q p) → ∀ p ∈ buildTidied rs m, Q p := by
  intro rs
  induction rs with
  | nil =>
    intro m hm p hp
    exact hm p hp
  | cons r t ih =>
    intro m hm p hp
    unfold buildTidied at hp
    refine ih _ ?_ p hp
    intro q hq
    split at hq
    · exact hm q hq
    · rcases mem_upsert _ _ hq with h1 | h1
      · subst h1
        exact hins r
      · exact hm q h1

lemma buildTidied_keys_nodup :
    ∀ (rs : List RawRecord) (m : List (String × TidiedAsset)),
      (keysA m).Nodup → (keysA (buildTidied rs m)).Nodup := by
  intro rs
  induction rs with
  | nil =>
    intro m h
    exact h
  | cons r t ih =>
    intro m h
    unfold buildTidied
    refine ih _ ?_
    split
    · exact h
    · exact keysA_upsert_nodup m _ _ h

lemma newIds_nodup (records : List RawRecord) : (newIds records).Nodup :=
  buildTidied_keys_nodup records [] (by simp [keysA])

/-- The tidied map binds each key to a tidied asset carrying that key as
its `unique_id`. -/
lemma tm_val_uid {records : List RawRecord} {u : String} {t : TidiedAsset}
    (h : lookupA (tidiedMap records) u = some t) : t.unique_id = u := by
  have hmem := lookupA_mem h
  have := buildTidied_master (fun p => p.2.unique_id = p.1)
    (fun r => rfl) records [] (by simp) (u, t) hmem
  exact this

/-! ### `closeFrom` positional lemmas and live-row counting -/

lemma closeFrom_length (d : Nat) (I : List Nat) :
    ∀ (i : Nat) (A : List Asset), (closeFrom d I i A).length = A.length := by
  intro i A
  induction A generalizing i with
  | nil => rfl
  | cons a t ih => simp [closeFrom, ih]

lemma closeFrom_getElem (d : Nat) (I : List Nat) :
    ∀ (A : List Asset) (i j : Nat) (hj : j < A.length)
      (hj2 : j < (closeFrom d I i A).length),
      (closeFrom d I i A)[j] =
        if (i + j) ∈ I then { A[j] with valid_until := some d } else A[j] := by
  intro A
  induction A with
  | nil =>
    intro i j hj hj2
    simp at hj
  | cons a t ih =>
    intro i j hj hj2
    cases j with
    | zero =>
      simp [closeFrom]
    | succ j' =>
      have hj' : j' < t.length := by simpa using Nat.lt_of_succ_lt_succ hj
      have hj2' : j' < (closeFrom d I (i + 1) t).length := by
        rw [closeFrom_length]
        exact hj'
      have := ih (i + 1) j' hj' hj2'
      simp only [closeFrom, List.getElem_cons_succ, this]
      have harith : i + 1 + j' = i + (j' + 1) := by omega
      rw [harith]

/-- Number of live rows carrying a given `unique_id`. -/
def liveCount (A : List Asset) (u : String) : Nat :=
  A.countP (fun a => a.unique_id = u && a.valid_until = none)

lemma liveCount_append (A B : List Asset) (u : String) :
    liveCount (A ++ B) u = liveCount A u + liveCount B u :=
  List.countP_append _ A B

lemma liveCount_le_one_of_getElem {A : List Asset} {u : String} {j k : Nat}
    (hj : j < A.length) (hk : k < A.length) (hjk : j ≠ k)
    (hlj : (A[j]).unique_id = u ∧ (A[j]).valid_until = none)
    (hlk : (A[k]).unique_id = u ∧ (A[k]).valid_until = none) :
    2 ≤ liveCount A u := by
  induction A generalizing j k with
  | nil => simp at hj
  | cons a t ih =>
    have hcons : liveCount (a :: t) u =
        liveCount t u + if (a.unique_id = u && a.valid_until = none) then 1 else 0 :=
      List.countP_cons _ _ _
    cases j with
    | zero =>
      cases k with
      | zero => exact absurd rfl hjk
      | succ k' =>
        have hk' : k' < t.length := by simpa using Nat.lt_of_succ_lt_succ hk
        simp only [List.getElem_cons_zero] at hlj
        simp only [List.getElem_cons_succ] at hlk
        have h1 : 1 ≤ liveCount t u := by
          refine List.countP_pos_iff.mpr ?_
          exact ⟨t[k'], List.getElem_mem hk', by simp [hlk.1, hlk.2]⟩
        rw [hcons, if_pos (by simp [hlj.1, hlj.2])]
        omega
    | succ j' =>
      cases k with
      | zero =>
        have hj' : j' < t.length := by simpa using Nat.lt_of_succ_lt_succ hj
        simp only [List.getElem_cons_zero] at hlk
        simp only [List.getElem_cons_succ] at hlj
        have h1 : 1 ≤ liveCount t u := by
          refine List.countP_pos_iff.mpr ?_
          exact ⟨t[j'], List.getElem_mem hj', by simp [hlj.1, hlj.2]⟩
        rw [hcons, if_pos (by simp [hlk.1, hlk.2])]
        omega
      | succ k' =>
        have hj' : j' < t.length := by simpa using Nat.lt_of_succ_lt_succ hj
        have hk' : k' < t.length := by simpa using Nat.lt_of_succ_lt_succ hk
        simp only [List.getElem_cons_succ] at hlj hlk
        have := ih hj' hk' (fun he => hjk (by rw [he])) hlj hlk
        rw [hcons]
        omega

lemma liveCount_closeFrom_le (d : Nat) (I : List Nat) (u : String) :
    ∀ (A : List Asset) (i : Nat),
      liveCount (closeFrom d I i A) u ≤ liveCount A u := by
  intro A
  induction A with
  | nil =>
    intro i
    simp [closeFrom, liveCount]
  | cons a t ih =>
    intro i
    have hrec := ih (i + 1)
    unfold liveCount at hrec ⊢
    by_cases hIn : i ∈ I
    · simp only [closeFrom, if_pos hIn, List.countP_cons]
      have h0 : (decide (a.unique_id = u) && decide ((some d : Option Nat) = none)) = false := by
        simp
      rw [h0]
      simp only [Bool.false_eq_true, if_false]
      omega
    · simp only [closeFrom, if_neg hIn, List.countP_cons]
      omega

lemma liveCount_closeFrom_zero (d : Nat) (I : List Nat) (u : String) :
    ∀ (A : List Asset) (i : Nat),
      (∀ j (hj : j < A.length),
        (A[j]).unique_id = u → (A[j]).valid_until = none → (i + j) ∈ I) →
      liveCount (closeFrom d I i A) u = 0 := by
  intro A
  induction A with
  | nil =>
    intro i _
    simp [closeFrom, liveCount]
  | cons a t ih =>
    intro i h
    unfold closeFrom liveCount
    rw [List.countP_cons]
    have hrec : liveCount (closeFrom d I (i + 1) t) u = 0 := by
      refine ih (i + 1) ?_
      intro j hj h1 h2
      have := h (j + 1) (by simpa using Nat.succ_lt_succ hj)
        (by simpa using h1) (by simpa using h2)
      have harith : i + (j + 1) = i + 1 + j := by omega
      rw [harith] at this
      exact this
    unfold liveCount at hrec
    rw [hrec]
    split
    · rename_i hmem
      simp
    · rename_i hmem
      by_cases hu : a.unique_id = u
      · by_cases hl : a.valid_until = none
        · exact absurd (by simpa using h 0 (by simp) (by simpa using hu) (by simpa using hl)) hmem
        · simp [hl]
      · simp [hu]

/-! ### Live rows among freshly opened version rows -/

lemma liveCount_cons (a : Asset) (A : List Asset) (u : String) :
    liveCount (a :: A) u =
      liveCount A u +
        if a.unique_id = u ∧ a.valid_until = none then 1 else 0 := by
  unfold liveCount
  rw [List.countP_cons]
  congr 1
  by_cases h1 : a.unique_id = u <;> by_cases h2 : a.valid_until = none <;>
    simp [h1, h2]

lemma newRowsFor_cons (records : List RawRecord) (d : Nat) (x : String)
    (t : List String) :
    newRowsFor records d (x :: t) =
      (match lookupA (tidiedMap records) x with
       | some tt => tidied_to_asset tt d :: newRowsFor records d t
       | none => newRowsFor records d t) := by
  unfold newRowsFor
  rw [List.filterMap_cons]
  cases lookupA (tidiedMap records) x with
  | none => simp only [Option.map_none']
  | some tt => simp only [Option.map_some']

lemma newRowsFor_liveCount_zero {records : List RawRecord} {d : Nat}
    {ids : List String} {u : String} (h : u ∉ ids) :
    liveCount (newRowsFor records d ids) u = 0 := by
  induction ids with
  | nil => rfl
  | cons x t ih =>
    have hx : x ≠ u := fun he => h (he ▸ List.mem_cons_self _ _)
    have ht : u ∉ t := fun hm => h (List.mem_cons_of_mem _ hm)
    cases hlk : lookupA (tidiedMap records) x with
    | none =>
      rw [newRowsFor_cons, hlk]
      exact ih ht
    | some tt =>
      rw [newRowsFor_cons, hlk]
      show liveCount (tidied_to_asset tt d :: newRowsFor records d t) u = 0
      rw [liveCount_cons, ih ht]
      have huid : (tidied_to_asset tt d).unique_id = x := tm_val_uid hlk
      simp [huid, hx]

lemma newRowsFor_liveCount_le_one (records : List RawRecord) (d : Nat)
    {ids : List String} (hnd : ids.Nodup) (u : String) :
    liveCount (newRowsFor records d ids) u ≤ 1 := by
  induction ids with
  | nil => simp [newRowsFor, liveCount]
  | cons x t ih =>
    rw [List.nodup_cons] at hnd
    cases hlk : lookupA (tidiedMap records) x with
    | none =>
      rw [newRowsFor_cons, hlk]
      exact ih hnd.2
    | some tt =>
      rw [newRowsFor_cons, hlk]
      show liveCount (tidied_to_asset tt d :: newRowsFor records d t) u ≤ 1
      rw [liveCount_cons]
      by_cases hx : x = u
      · have h0 : liveCount (newRowsFor records d t) u = 0 :=
          newRowsFor_liveCount_zero (hx ▸ hnd.1)
        rw [h0]
        split <;> omega
      · have huid : (tidied_to_asset tt d).unique_id = x := tm_val_uid hlk
        have hcond : ¬ ((tidied_to_asset tt d).unique_id = u ∧
            (tidied_to_asset tt d).valid_until = none) :=
          fun hc => hx (huid.symm.trans hc.1)
        rw [if_neg hcond]
        have := ih hnd.2
        omega

/-! ### Id-set facts -/

lemma addedIds_nodup (A : List Asset) (records : List RawRecord) :
    (addedIds A records).Nodup :=
  (newIds_nodup records).filter _

lemma updatedIds_nodup (A : List Asset) (records : List RawRecord) :
    (updatedIds A records).Nodup :=
  ((currentIds_nodup A).filter _).filter _

lemma mem_addedIds {A : List Asset} {records : List RawRecord} {u : String}
    (h : u ∈ addedIds A records) : u ∈ newIds records ∧ u ∉ currentIds A := by
  have := List.mem_filter.mp h
  exact ⟨this.1, by simpa using this.2⟩

lemma mem_removedIds {A : List Asset} {records : List RawRecord} {u : String}
    (h : u ∈ removedIds A records) : u ∈ currentIds A ∧ u ∉ newIds records := by
  have := List.mem_filter.mp h
  exact ⟨this.1, by simpa using this.2⟩

lemma mem_updatedIds {A : List Asset} {records : List RawRecord} {u : String}
    (h : u ∈ updatedIds A records) :
    u ∈ currentIds A ∧ u ∈ newIds records ∧ diffOf A records u ≠ [] := by
  have h1 := List.mem_filter.mp h
  have h2 := List.mem_filter.mp h1.1
  refine ⟨h2.1, by simpa using h2.2, by simpa using h1.2⟩

/-- A live row below any index forces its id into `currentIds`, so a live
count of at least one yields dict membership. -/
lemma currentIds_of_liveCount_pos {A : List Asset} {u : String}
    (h : 1 ≤ liveCount A u) : u ∈ currentIds A := by
  have := List.countP_pos_iff.mp (by omega : 0 < liveCount A u)
  obtain ⟨a, ha, hpa⟩ := this
  obtain ⟨j, hj, rfl⟩ := List.mem_iff_getElem.mp ha
  simp only [Bool.and_eq_true, decide_eq_true_eq] at hpa
  exact hpa.1 ▸ cs_complete hj hpa.2

/-- C1 core: one pass preserves at-most-one-live. -/
lemma process_snapshot_liveCount (st : ReconState) (records : List RawRecord)
    (d : Nat) (h1 : ∀ u, liveCount st.assets u ≤ 1) (u : String) :
    liveCount (process_snapshot st records d).1.assets u ≤ 1 := by
  unfold process_snapshot
  split
  · exact h1 u
  · simp only []
    rw [liveCount_append, liveCount_append]
    by_cases hadd : u ∈ addedIds st.assets records
    · have hnc : u ∉ currentIds st.assets := (mem_addedIds hadd).2
      have h0 : liveCount st.assets u = 0 := by
        by_contra hne
        exact hnc (currentIds_of_liveCount_pos (by omega))
      have hcf : liveCount (closeFrom d (closeIdxs st.assets records) 0 st.assets) u = 0 := by
        have := liveCount_closeFrom_le d (closeIdxs st.assets records) u st.assets 0
        omega
      have hupd : u ∉ updatedIds st.assets records := by
        intro hm
        exact hnc (mem_updatedIds hm).1
      rw [hcf, newRowsFor_liveCount_zero hupd]
      have := newRowsFor_liveCount_le_one records d
        (addedIds_nodup st.assets records) u
      omega
    · rw [newRowsFor_liveCount_zero hadd]
      by_cases hupd : u ∈ updatedIds st.assets records
      · have hcur : u ∈ currentIds st.assets := (mem_updatedIds hupd).1
        obtain ⟨i0, hi0⟩ := lookupA_isSome_of_mem_keys hcur
        have hsound := cs_sound hi0
        have hIdx : i0 ∈ closeIdxs st.assets records := by
          unfold closeIdxs
          refine List.mem_filterMap.mpr ⟨u, ?_, hi0⟩
          unfold closedUidList
          exact List.mem_append.mpr (Or.inr hupd)
        have hcf : liveCount (closeFrom d (closeIdxs st.assets records) 0 st.assets) u = 0 := by
          refine liveCount_closeFrom_zero d _ u st.assets 0 ?_
          intro j hj hju hjl
          rw [Nat.zero_add]
          have hji : j = i0 := by
            by_contra hne
            have h2 := liveCount_le_one_of_getElem hj hsound.1 hne
              ⟨hju, hjl⟩
              ⟨by rw [← getAsset_eq hsound.1]; exact hsound.2.1,
               by rw [← getAsset_eq hsound.1]; exact hsound.2.2⟩
            have := h1 u
            omega
          rw [hji]
          exact hIdx
        rw [hcf]
        have := newRowsFor_liveCount_le_one records d
          (updatedIds_nodup st.assets records) u
        omega
      · rw [newRowsFor_liveCount_zero hupd]
        have := liveCount_closeFrom_le d (closeIdxs st.assets records) u st.assets 0
        have := h1 u
        omega

/-- C1 — a reconciliation pass preserves the at-most-one-live-row
invariant for every entity id. -/
theorem C1_at_most_one_live (st : ReconState) (records : List RawRecord)
    (d : Nat) (h1 : ∀ u, liveCount st.assets u ≤ 1) (u : String) :
    liveCount (process_snapshot st records d).1.assets u ≤ 1 :=
  process_snapshot_liveCount st records d h1 u

/-- C1 witness: an update pass over a one-live-row state keeps at most one
live row for the updated id. -/
theorem C1_at_most_one_live_witness :
    (∀ u, liveCount [tidied_to_asset (tidy_raw_record { uniqueID := some "A1" }) 1] u ≤ 1) ∧
    liveCount (process_snapshot
        { assets := [tidied_to_asset (tidy_raw_record { uniqueID := some "A1" }) 1],
          events := [], meta := [] }
        [{ uniqueID := some "A1", description := some "Bell" }] 2).1.assets "A1" ≤ 1 := by
  constructor
  · intro u
    simpa [liveCount] using List.countP_le_length
      (fun a : Asset => decide (a.unique_id = u) && decide (a.valid_until = none))
      (l := [tidied_to_asset (tidy_raw_record { uniqueID := some "A1" }) 1])
  · exact C1_at_most_one_live _ _ 2
      (by
        intro u
        simpa [liveCount] using List.countP_le_length
          (fun a : Asset => decide (a.unique_id = u) && decide (a.valid_until = none))
          (l := [tidied_to_asset (tidy_raw_record { uniqueID := some "A1" }) 1])) "A1"

/-! ### Unfolding equation of a non-empty pass -/

lemma process_snapshot_eq (st : ReconState) (records : List RawRecord) (d : Nat)
    (h : records.isEmpty = false) :
    process_snapshot st records d =
      ({ assets := closeFrom d (closeIdxs st.assets records) 0 st.assets ++
           newRowsFor records d (addedIds st.assets records) ++
           newRowsFor records d (updatedIds st.assets records),
         events := st.events ++ addedEvents records d (addedIds st.assets records) ++
           removedEvents st.assets d (removedIds st.assets records) ++
           updatedEvents st.assets records d (updatedIds st.assets records),
         meta := st.meta },
       { added := (addedIds st.assets records).length,
         updated := (updatedIds st.assets records).length,
         removed := (removedIds st.assets records).length,
         unchanged := ((commonIds st.assets records).filter
           (fun u => diffOf st.assets records u = [])).length }) := by
  unfold process_snapshot
  rw [if_neg (by simp [h])]

/-- Positions closed by the pass point at live rows of the closed
categories. -/
lemma mem_closeIdxs {A : List Asset} {records : List RawRecord} {j : Nat}
    (h : j ∈ closeIdxs A records) :
    j < A.length ∧ (getAsset A j).valid_until = none ∧
      (getAsset A j).unique_id ∈ closedUidList A records := by
  unfold closeIdxs at h
  obtain ⟨u, hu, hlk⟩ := List.mem_filterMap.mp h
  have hs := cs_sound hlk
  exact ⟨hs.1, hs.2.2, hs.2.1 ▸ hu⟩

/-- C10 — a pass leaves every pre-existing row either untouched or, when
the row is live and its entity is in the removal or update category,
modified only by setting `valid_until` to the snapshot date; rows that
were already closed are never modified. -/
theorem C10_close_frame (st : ReconState) (records : List RawRecord) (d : Nat)
    (j : Nat) (hj : j < st.assets.length) :
    st.assets.length ≤ (process_snapshot st records d).1.assets.length ∧
    (getAsset (process_snapshot st records d).1.assets j = getAsset st.assets j ∨
      ((getAsset st.assets j).valid_until = none ∧
       (getAsset st.assets j).unique_id ∈ closedUidList st.assets records ∧
       getAsset (process_snapshot st records d).1.assets j =
         { getAsset st.assets j with valid_until := some d })) ∧
    (∀ e, (getAsset st.assets j).valid_until = some e →
      getAsset (process_snapshot st records d).1.assets j = getAsset st.assets j) := by
  cases hE : records.isEmpty with
  | true =>
    unfold process_snapshot
    rw [if_pos (by simp [hE])]
    exact ⟨Nat.le_refl _, Or.inl rfl, fun e _ => rfl⟩
  | false =>
    rw [process_snapshot_eq st records d hE]
    dsimp only
    have hlc : (closeFrom d (closeIdxs st.assets records) 0 st.assets).length =
        st.assets.length := closeFrom_length d _ 0 st.assets
    have hlen : st.assets.length ≤
        ((closeFrom d (closeIdxs st.assets records) 0 st.assets ++
          newRowsFor records d (addedIds st.assets records)) ++
          newRowsFor records d (updatedIds st.assets records)).length := by
      rw [List.length_append, List.length_append, hlc]
      omega
    refine ⟨hlen, ?_⟩
    have hj1 : j < (closeFrom d (closeIdxs st.assets records) 0 st.assets).length := by
      omega
    have hj2 : j < ((closeFrom d (closeIdxs st.assets records) 0 st.assets ++
        newRowsFor records d (addedIds st.assets records)) ++
        newRowsFor records d (updatedIds st.assets records)).length := by
      omega
    have hj3 : j < (closeFrom d (closeIdxs st.assets records) 0 st.assets ++
        newRowsFor records d (addedIds st.assets records)).length := by
      rw [List.length_append]
      omega
    have hget : getAsset ((closeFrom d (closeIdxs st.assets records) 0 st.assets ++
        newRowsFor records d (addedIds st.assets records)) ++
        newRowsFor records d (updatedIds st.assets records)) j =
        if (0 + j) ∈ closeIdxs st.assets records then
          { st.assets[j] with valid_until := some d }
        else st.assets[j] := by
      rw [getAsset_eq hj2, List.getElem_append_left hj3,
        List.getElem_append_left hj1,
        closeFrom_getElem d _ st.assets 0 j hj (by rw [closeFrom_length]; exact hj)]
    rw [Nat.zero_add] at hget
    by_cases hin : j ∈ closeIdxs st.assets records
    · have hm := mem_closeIdxs hin
      rw [if_pos hin] at hget
      constructor
      · right
        refine ⟨hm.2.1, hm.2.2, ?_⟩
        rw [hget, getAsset_eq hj]
      · intro e he
        rw [hm.2.1] at he
        cases he
    · rw [if_neg hin] at hget
      have heq : getAsset ((closeFrom d (closeIdxs st.assets records) 0 st.assets ++
          newRowsFor records d (addedIds st.assets records)) ++
          newRowsFor records d (updatedIds st.assets records)) j =
          getAsset st.assets j := by
        rw [hget, getAsset_eq hj]
      exact ⟨Or.inl heq, fun e _ => heq⟩

/-- C10 witness: a one-row live state whose entity is absent from the
batch; the removal pass closes exactly that row. -/
theorem C10_close_frame_witness :
    (0 : Nat) < [tidied_to_asset (tidy_raw_record { uniqueID := some "A1" }) 1].length ∧
    ([tidied_to_asset (tidy_raw_record { uniqueID := some "A1" }) 1].length ≤
      (process_snapshot
        { assets := [tidied_to_asset (tidy_raw_record { uniqueID := some "A1" }) 1],
          events := [], meta := [] }
        [{ uniqueID := some "B2" }] 2).1.assets.length) :=
  ⟨by decide,
   (C10_close_frame
     { assets := [tidied_to_asset (tidy_raw_record { uniqueID := some "A1" }) 1],
       events := [], meta := [] }
     [{ uniqueID := some "B2" }] 2 0 (by decide)).1⟩

/-! ### C4: interval non-overlap -/

/-- Membership in the validity interval `[valid_from, valid_until)`
(unbounded above for live rows). -/
def inInterval (a : Asset) (t : Nat) : Prop :=
  a.valid_from ≤ t ∧ ∀ e, a.valid_until = some e → t < e

/-- The validity intervals of two rows intersect. -/
def overlaps (a b : Asset) : Prop := ∃ t, inInterval a t ∧ inInterval b t

/-- Pairwise non-overlap of the validity intervals of same-entity rows. -/
def intervalsOK (A : List Asset) : Prop :=
  ∀ i j (hi : i < A.length) (hj : j < A.length), i ≠ j →
    (A[i]).unique_id = (A[j]).unique_id → ¬ overlaps (A[i]) (A[j])

lemma overlaps_comm {a b : Asset} (h : overlaps a b) : overlaps b a := by
  obtain ⟨t, h1, h2⟩ := h
  exact ⟨t, h2, h1⟩

lemma overlaps_of_close_left {a b : Asset} {d : Nat} (ha : a.valid_until = none)
    (h : overlaps { a with valid_until := some d } b) : overlaps a b := by
  obtain ⟨t, ⟨h1, _⟩, hb⟩ := h
  refine ⟨t, ⟨h1, ?_⟩, hb⟩
  intro e he
  rw [ha] at he
  cases he

lemma overlaps_of_close_right {a b : Asset} {d : Nat} (hb : b.valid_until = none)
    (h : overlaps a { b with valid_until := some d }) : overlaps a b :=
  overlaps_comm (overlaps_of_close_left hb (overlaps_comm h))

lemma overlaps_live_live {a b : Asset} (ha : a.valid_until = none)
    (hb : b.valid_until = none) : overlaps a b := by
  refine ⟨max a.valid_from b.valid_from,
    ⟨Nat.le_max_left _ _, ?_⟩, ⟨Nat.le_max_right _ _, ?_⟩⟩
  · intro e he
    rw [ha] at he
    cases he
  · intro e he
    rw [hb] at he
    cases he

lemma not_overlaps_closed_new {a b : Asset} {e d : Nat}
    (ha : a.valid_until = some e) (hed : e ≤ d) (hbf : d ≤ b.valid_from) :
    ¬ overlaps a b := by
  rintro ⟨t, ⟨_, h2⟩, ⟨h3, _⟩⟩
  have := h2 e ha
  omega

lemma not_overlaps_closedAt_new {a b : Asset} {d : Nat} (hbf : d ≤ b.valid_from) :
    ¬ overlaps { a with valid_until := some d } b := by
  rintro ⟨t, ⟨_, h2⟩, ⟨h3, _⟩⟩
  have := h2 d rfl
  omega

lemma mem_newRowsFor {records : List RawRecord} {d : Nat} {ids : List String}
    {b : Asset} (h : b ∈ newRowsFor records d ids) :
    b.valid_from = d ∧ b.valid_until = none ∧ b.unique_id ∈ ids := by
  unfold newRowsFor at h
  obtain ⟨u, hu, hf⟩ := List.mem_filterMap.mp h
  obtain ⟨t, hlk, hb⟩ := Option.map_eq_some'.mp hf
  subst hb
  refine ⟨rfl, rfl, ?_⟩
  show t.unique_id ∈ ids
  rw [tm_val_uid hlk]
  exact hu

lemma newRowsFor_append (records : List RawRecord) (d : Nat)
    (l1 l2 : List String) :
    newRowsFor records d (l1 ++ l2) =
      newRowsFor records d l1 ++ newRowsFor records d l2 :=
  List.filterMap_append _ _ _

lemma newRowsFor_map_uid (records : List RawRecord) (d : Nat)
    (ids : List String) :
    (newRowsFor records d ids).map (fun a => a.unique_id) =
      ids.filter (fun u => (lookupA (tidiedMap records) u).isSome) := by
  induction ids with
  | nil => rfl
  | cons x t ih =>
    cases hlk : lookupA (tidiedMap records) x with
    | none =>
      rw [newRowsFor_cons, hlk, List.filter_cons, hlk]
      simp only [Option.isSome_none, Bool.false_eq_true, if_false]
      exact ih
    | some tt =>
      rw [newRowsFor_cons, hlk, List.filter_cons, hlk]
      simp only [Option.isSome_some, if_true]
      rw [List.map_cons]
      congr 1
      exact tm_val_uid hlk

lemma added_updated_disjoint (A : List Asset) (records : List RawRecord) :
    (addedIds A records).Disjoint (updatedIds A records) := by
  intro u hu1 hu2
  exact (mem_addedIds hu1).2 (mem_updatedIds hu2).1

/-- C4 core: one pass preserves pairwise interval non-overlap, given that
every already-closed row closed no later than the snapshot date. -/
lemma process_snapshot_intervalsOK (st : ReconState) (records : List RawRecord)
    (d : Nat) (hOK : intervalsOK st.assets)
    (hClosed : ∀ a ∈ st.assets, ∀ e, a.valid_until = some e → e ≤ d) :
    intervalsOK (process_snapshot st records d).1.assets := by
  cases hE : records.isEmpty with
  | true =>
    unfold process_snapshot
    rw [if_pos (by simp [hE])]
    exact hOK
  | false =>
    rw [process_snapshot_eq st records d hE]
    dsimp only
    rw [List.append_assoc, ← newRowsFor_append]
    set A := st.assets with hA
    set I := closeIdxs st.assets records with hI
    set allIds := addedIds st.assets records ++ updatedIds st.assets records with hAll
    set C := closeFrom d I 0 A with hCdef
    set N := newRowsFor records d allIds with hNdef
    have hlenC : C.length = A.length := by
      rw [hCdef]
      exact closeFrom_length d I 0 A
    have hNodupAll : allIds.Nodup := by
      rw [hAll]
      exact (addedIds_nodup st.assets records).append
        (updatedIds_nodup st.assets records)
        (added_updated_disjoint st.assets records)
    have hNodupUid : (N.map (fun a => a.unique_id)).Nodup := by
      rw [hNdef, newRowsFor_map_uid]
      exact hNodupAll.filter _
    have hElemLeft : ∀ (k : Nat) (hk : k < A.length) (hk2 : k < (C ++ N).length),
        (C ++ N)[k] =
          if k ∈ I then { A[k] with valid_until := some d } else A[k] := by
      intro k hk hk2
      rw [List.getElem_append_left (show k < C.length by omega)]
      have h3 := closeFrom_getElem d I A 0 k hk (by rw [closeFrom_length]; exact hk)
      rw [Nat.zero_add] at h3
      exact h3
    have hElemRight : ∀ (k : Nat) (hk : C.length ≤ k) (hk2 : k < (C ++ N).length)
        (hk3 : k - C.length < N.length), (C ++ N)[k] = N[k - C.length] := by
      intro k hk hk2 hk3
      exact List.getElem_append_right hk
    -- mixed case: an old-position row never overlaps a same-id new row
    have cross : ∀ (io jn : Nat) (hio : io < A.length)
        (hjn1 : C.length ≤ jn) (hjn2 : jn < (C ++ N).length)
        (hio2 : io < (C ++ N).length),
        (C ++ N)[io].unique_id = (C ++ N)[jn].unique_id →
        ¬ overlaps ((C ++ N)[io]) ((C ++ N)[jn]) := by
      intro io jn hio hjn1 hjn2 hio2 huid hov
      have hbmem : (C ++ N)[jn] ∈ N := by
        rw [hElemRight jn hjn1 hjn2
          (by rw [List.length_append] at hjn2; omega)]
        exact List.getElem_mem _
      have hb := mem_newRowsFor hbmem
      rw [hElemLeft io hio hio2] at huid hov
      by_cases hiI : io ∈ I
      · rw [if_pos hiI] at hov
        exact not_overlaps_closedAt_new hb.1.ge hov
      · rw [if_neg hiI] at huid hov
        cases hcl : (A[io]).valid_until with
        | some e =>
          exact not_overlaps_closed_new hcl
            (hClosed (A[io]) (List.getElem_mem hio) e hcl)
            hb.1.ge hov
        | none =>
          have hcur : (A[io]).unique_id ∈ currentIds st.assets :=
            cs_complete hio hcl
          have hbu : (A[io]).unique_id ∈ allIds := by
            rw [huid]
            exact hb.2.2
          rcases List.mem_append.mp hbu with hadd | hupd
          · exact (mem_addedIds hadd).2 hcur
          · obtain ⟨i0, hi0⟩ := lookupA_isSome_of_mem_keys hcur
            have hs := cs_sound hi0
            have hi0I : i0 ∈ I := by
              show i0 ∈ closeIdxs st.assets records
              unfold closeIdxs
              refine List.mem_filterMap.mpr ⟨(A[io]).unique_id, ?_, hi0⟩
              unfold closedUidList
              exact List.mem_append.mpr (Or.inr hupd)
            by_cases hio0 : io = i0
            · exact hiI (hio0 ▸ hi0I)
            · have hs1 : i0 < A.length := hs.1
              have hlive0 : (A[i0]).valid_until = none := by
                have h5 := hs.2.2
                rw [getAsset_eq hs.1] at h5
                exact h5
              have huid0 : (A[io]).unique_id = (A[i0]).unique_id := by
                have h6 := hs.2.1
                rw [getAsset_eq hs.1] at h6
                exact h6.symm
              exact hOK io i0 hio hs1 hio0 huid0 (overlaps_live_live hcl hlive0)
    intro i j hi hj hij huid hov
    by_cases hiA : i < A.length
    · by_cases hjA : j < A.length
      · -- both rows pre-exist: fall back on the original invariant
        rw [hElemLeft i hiA hi, hElemLeft j hjA hj] at huid hov
        have hMemI : ∀ k (hk : k < A.length), k ∈ I → (A[k]).valid_until = none := by
          intro k hk hkI
          have := (mem_closeIdxs (hI ▸ hkI)).2.1
          rw [← hA] at this
          rw [← getAsset_eq hk]
          exact this
        by_cases hiI : i ∈ I <;> by_cases hjI : j ∈ I
        · rw [if_pos hiI] at huid hov
          rw [if_pos hjI] at huid hov
          exact hOK i j hiA hjA hij huid
            (overlaps_of_close_left (hMemI i hiA hiI)
              (overlaps_of_close_right (hMemI j hjA hjI) hov))
        · rw [if_pos hiI] at huid hov
          rw [if_neg hjI] at huid hov
          exact hOK i j hiA hjA hij huid
            (overlaps_of_close_left (hMemI i hiA hiI) hov)
        · rw [if_neg hiI] at huid hov
          rw [if_pos hjI] at huid hov
          exact hOK i j hiA hjA hij huid
            (overlaps_of_close_right (hMemI j hjA hjI) hov)
        · rw [if_neg hiI] at huid hov
          rw [if_neg hjI] at huid hov
          exact hOK i j hiA hjA hij huid hov
      · exact cross i j hiA (by omega) hj hi huid hov
    · by_cases hjA : j < A.length
      · exact cross j i hjA (by omega) hi hj huid.symm (overlaps_comm hov)
      · -- both rows are freshly opened: their ids are distinct
        have hi' : i - C.length < N.length := by
          rw [List.length_append] at hi
          omega
        have hj' : j - C.length < N.length := by
          rw [List.length_append] at hj
          omega
        rw [hElemRight i (by omega) hi hi', hElemRight j (by omega) hj hj'] at huid
        have him : i - C.length < (N.map (fun a => a.unique_id)).length := by
          rw [List.length_map]
          exact hi'
        have hjm : j - C.length < (N.map (fun a => a.unique_id)).length := by
          rw [List.length_map]
          exact hj'
        have hmapEq : (N.map (fun a => a.unique_id))[i - C.length] =
            (N.map (fun a => a.unique_id))[j - C.length] := by
          rw [List.getElem_map, List.getElem_map]
          exact huid
        have := hNodupUid.getElem_inj_iff.mp hmapEq
        omega

/-- C4 — with pairwise non-overlapping intervals, every closed row closed
no later than the snapshot date (dates processed in increasing order) and
every live row opened no later than the snapshot date, a pass preserves
pairwise interval non-overlap for every entity. -/
theorem C4_interval_non_overlap (st : ReconState) (records : List RawRecord)
    (d : Nat) (hOK : intervalsOK st.assets)
    (hClosed : ∀ a ∈ st.assets, ∀ e, a.valid_until = some e → e ≤ d)
    (_hLive : ∀ a ∈ st.assets, a.valid_until = none → a.valid_from ≤ d) :
    intervalsOK (process_snapshot st records d).1.assets :=
  process_snapshot_intervalsOK st records d hOK hClosed

/-- C4 witness: a one-live-row state reconciled against a batch replacing
its entity. -/
theorem C4_interval_non_overlap_witness :
    intervalsOK (process_snapshot
      { assets := [tidied_to_asset (tidy_raw_record { uniqueID := some "A1" }) 1],
        events := [], meta := [] }
      [{ uniqueID := some "B2" }] 2).1.assets := by
  refine C4_interval_non_overlap _ _ 2 ?_ ?_ ?_
  · intro i j hi hj hij
    simp only [List.length_singleton] at hi hj
    omega
  · intro a ha e he
    rw [List.mem_singleton] at ha
    subst ha
    cases he
  · intro a ha _
    rw [List.mem_singleton] at ha
    subst ha
    exact Nat.le_of_lt (by decide)

/-! ### C5: idempotence of a pass -/

lemma asset_to_tidied_roundtrip (t : TidiedAsset) (d : Nat) :
    asset_to_tidied (tidied_to_asset t d) = t := by
  obtain ⟨id, o, de, l, c, a, ⟨n, l1, l2, ct, pc, te, f, e, w⟩⟩ := t
  rfl

lemma closeFrom_nil_idxs (d : Nat) :
    ∀ (A : List Asset) (i : Nat), closeFrom d [] i A = A := by
  intro A
  induction A with
  | nil =>
    intro i
    rfl
  | cons a t ih =>
    intro i
    simp [closeFrom, ih]

/-- After a non-empty pass on an at-most-one-live state, every live row
agrees (empty diff) with the tidied batch entry for its id. -/
lemma live_rows_spec (st : ReconState) (records : List RawRecord) (d : Nat)
    (h1 : ∀ u, liveCount st.assets u ≤ 1) (hE : records.isEmpty = false)
    (j : Nat) (hj : j < (process_snapshot st records d).1.assets.length)
    (hlive : (getAsset (process_snapshot st records d).1.assets j).valid_until = none) :
    ∃ t, lookupA (tidiedMap records)
        ((getAsset (process_snapshot st records d).1.assets j).unique_id) = some t ∧
      compare_tidied_assets
        (asset_to_tidied (getAsset (process_snapshot st records d).1.assets j)) t = [] := by
  rw [process_snapshot_eq st records d hE] at hj hlive ⊢
  dsimp only at hj hlive ⊢
  rw [List.append_assoc, ← newRowsFor_append] at hj hlive ⊢
  set A := st.assets with hA
  set I := closeIdxs st.assets records with hI
  set allIds := addedIds st.assets records ++ updatedIds st.assets records with hAll
  set C := closeFrom d I 0 A with hCdef
  set N := newRowsFor records d allIds with hNdef
  have hlenC : C.length = A.length := closeFrom_length d I 0 A
  rw [getAsset_eq hj] at hlive ⊢
  by_cases hjC : j < A.length
  · have hEl : (C ++ N)[j] =
        if j ∈ I then { A[j] with valid_until := some d } else A[j] := by
      rw [List.getElem_append_left (show j < C.length by omega)]
      have h3 := closeFrom_getElem d I A 0 j hjC (by rw [closeFrom_length]; exact hjC)
      rw [Nat.zero_add] at h3
      exact h3
    by_cases hjI : j ∈ I
    · rw [hEl, if_pos hjI] at hlive
      simp at hlive
    · rw [hEl, if_neg hjI] at hlive ⊢
      have hcur : (A[j]).unique_id ∈ currentIds st.assets := cs_complete hjC hlive
      obtain ⟨i0, hi0⟩ := lookupA_isSome_of_mem_keys hcur
      have hs := cs_sound hi0
      have hi0A : i0 < A.length := hs.1
      have hlive0 : (A[i0]).valid_until = none := by
        have h5 := hs.2.2
        rw [getAsset_eq hs.1] at h5
        exact h5
      have huid0 : (A[i0]).unique_id = (A[j]).unique_id := by
        have h6 := hs.2.1
        rw [getAsset_eq hs.1] at h6
        exact h6
      have hij0 : i0 = j := by
        by_contra hne
        have h2 := liveCount_le_one_of_getElem hi0A hjC hne
          ⟨huid0, hlive0⟩ ⟨rfl, hlive⟩
        have := h1 ((A[j]).unique_id)
        omega
      subst hij0
      have hnotR : (A[i0]).unique_id ∉ removedIds st.assets records := by
        intro hmem
        apply hjI
        show i0 ∈ closeIdxs st.assets records
        unfold closeIdxs
        refine List.mem_filterMap.mpr ⟨(A[i0]).unique_id, ?_, hi0⟩
        unfold closedUidList
        exact List.mem_append.mpr (Or.inl hmem)
      have hnotU : (A[i0]).unique_id ∉ updatedIds st.assets records := by
        intro hmem
        apply hjI
        show i0 ∈ closeIdxs st.assets records
        unfold closeIdxs
        refine List.mem_filterMap.mpr ⟨(A[i0]).unique_id, ?_, hi0⟩
        unfold closedUidList
        exact List.mem_append.mpr (Or.inr hmem)
      have hnew : (A[i0]).unique_id ∈ newIds records := by
        by_contra hnn
        exact hnotR (List.mem_filter.mpr ⟨hcur, by simpa using hnn⟩)
      obtain ⟨t, ht⟩ := lookupA_isSome_of_mem_keys hnew
      refine ⟨t, ht, ?_⟩
      have hcom : (A[i0]).unique_id ∈ commonIds st.assets records :=
        List.mem_filter.mpr ⟨hcur, by simpa using hnew⟩
      have hdiff : diffOf st.assets records ((A[i0]).unique_id) = [] := by
        by_contra hne
        exact hnotU (List.mem_filter.mpr ⟨hcom, by simpa using hne⟩)
      unfold diffOf at hdiff
      rw [hi0, ht] at hdiff
      dsimp only at hdiff
      rw [getAsset_eq (show i0 < st.assets.length from hjC)] at hdiff
      exact hdiff
  · have hjN : j - C.length < N.length := by
      rw [List.length_append] at hj
      omega
    have hge : C.length ≤ j := by omega
    have hEl : (C ++ N)[j] = N[j - C.length] := List.getElem_append_right hge
    have hmem : (C ++ N)[j] ∈ N := by
      rw [hEl]
      exact List.getElem_mem _
    have hmem' : (C ++ N)[j] ∈ newRowsFor records d allIds := hmem
    unfold newRowsFor at hmem'
    obtain ⟨u, hu, hf⟩ := List.mem_filterMap.mp hmem'
    obtain ⟨t, hlk, hb⟩ := Option.map_eq_some'.mp hf
    refine ⟨t, ?_, ?_⟩
    · rw [← hb]
      show lookupA (tidiedMap records) t.unique_id = some t
      rw [tm_val_uid hlk]
      exact hlk
    · rw [← hb, asset_to_tidied_roundtrip]
      exact compare_self t

/-- After a non-empty pass, every id of the batch has a live row. -/
lemma live_exists (st : ReconState) (records : List RawRecord) (d : Nat)
    (hE : records.isEmpty = false) (u : String) (hu : u ∈ newIds records) :
    ∃ j, j < (process_snapshot st records d).1.assets.length ∧
      (getAsset (process_snapshot st records d).1.assets j).unique_id = u ∧
      (getAsset (process_snapshot st records d).1.assets j).valid_until = none := by
  rw [process_snapshot_eq st records d hE]
  dsimp only
  rw [List.append_assoc, ← newRowsFor_append]
  set A := st.assets with hA
  set I := closeIdxs st.assets records with hI
  set allIds := addedIds st.assets records ++ updatedIds st.assets records with hAll
  set C := closeFrom d I 0 A with hCdef
  set N := newRowsFor records d allIds with hNdef
  have hlenC : C.length = A.length := closeFrom_length d I 0 A
  have hfromN : ∀ hmem : u ∈ allIds, ∃ j, j < (C ++ N).length ∧
      (getAsset (C ++ N) j).unique_id = u ∧
      (getAsset (C ++ N) j).valid_until = none := by
    intro hmem
    obtain ⟨t, ht⟩ := lookupA_isSome_of_mem_keys hu
    have hmemN : tidied_to_asset t d ∈ N := by
      refine List.mem_filterMap.mpr ⟨u, hmem, ?_⟩
      rw [ht]
      rfl
    have hmemR : tidied_to_asset t d ∈ C ++ N := List.mem_append.mpr (Or.inr hmemN)
    obtain ⟨j, hj, hget⟩ := List.mem_iff_getElem.mp hmemR
    refine ⟨j, hj, ?_, ?_⟩
    · rw [getAsset_eq hj, hget]
      exact tm_val_uid ht
    · rw [getAsset_eq hj, hget]
      rfl
  by_cases hadd : u ∈ addedIds st.assets records
  · exact hfromN (List.mem_append.mpr (Or.inl hadd))
  · by_cases hupd : u ∈ updatedIds st.assets records
    · exact hfromN (List.mem_append.mpr (Or.inr hupd))
    · have hcur : u ∈ currentIds st.assets := by
        by_contra hnc
        exact hadd (List.mem_filter.mpr ⟨hu, by simpa using hnc⟩)
      obtain ⟨i0, hi0⟩ := lookupA_isSome_of_mem_keys hcur
      have hs := cs_sound hi0
      have hi0A : i0 < A.length := hs.1
      have hlive0 : (A[i0]).valid_until = none := by
        have h5 := hs.2.2
        rw [getAsset_eq hs.1] at h5
        exact h5
      have huid0 : (A[i0]).unique_id = u := by
        have h6 := hs.2.1
        rw [getAsset_eq hs.1] at h6
        exact h6
      have hniI : i0 ∉ I := by
        intro hmem
        have hmm := mem_closeIdxs hmem
        have h7 := hmm.2.2
        rw [hs.2.1] at h7
        rcases List.mem_append.mp h7 with h8 | h8
        · exact (mem_removedIds h8).2 hu
        · exact hupd h8
      have hjR : i0 < (C ++ N).length := by
        rw [List.length_append]
        omega
      have hEl : (C ++ N)[i0] = A[i0] := by
        rw [List.getElem_append_left (show i0 < C.length by omega)]
        have h3 := closeFrom_getElem d I A 0 i0 hi0A
          (by rw [closeFrom_length]; exact hi0A)
        rw [Nat.zero_add, if_neg hniI] at h3
        exact h3
      refine ⟨i0, hjR, ?_, ?_⟩
      · rw [getAsset_eq hjR, hEl]
        exact huid0
      · rw [getAsset_eq hjR, hEl]
        exact hlive0

/-- C5 — reconciling the same batch a second time (bypassing the date
guard) is a no-op: zero added, updated and removed, the state — live rows,
events and metadata — exactly as after the first pass, and the diff of
every looked-up entity pair in the second pass empty. -/
theorem C5_reconcile_idempotent (st : ReconState) (records : List RawRecord)
    (d d' : Nat) (h1 : ∀ u, liveCount st.assets u ≤ 1) :
    (process_snapshot (process_snapshot st records d).1 records d').1 =
      (process_snapshot st records d).1 ∧
    (process_snapshot (process_snapshot st records d).1 records d').2.added = 0 ∧
    (process_snapshot (process_snapshot st records d).1 records d').2.updated = 0 ∧
    (process_snapshot (process_snapshot st records d).1 records d').2.removed = 0 ∧
    (∀ u j t,
      lookupA (get_current_assets (process_snapshot st records d).1.assets) u = some j →
      lookupA (tidiedMap records) u = some t →
      compare_tidied_assets
        (asset_to_tidied (getAsset (process_snapshot st records d).1.assets j)) t = []) := by
  by_cases hEt : records.isEmpty = true
  · have hnil : records = [] := List.isEmpty_iff.mp hEt
    subst hnil
    refine ⟨rfl, rfl, rfl, rfl, ?_⟩
    intro u j t _ htm
    simp [tidiedMap, buildTidied, lookupA] at htm
  · have hE : records.isEmpty = false := by
      revert hEt
      cases records.isEmpty <;> simp
    have hsub : ∀ u ∈ currentIds (process_snapshot st records d).1.assets,
        u ∈ newIds records := by
      intro u hu
      obtain ⟨j, hj⟩ := lookupA_isSome_of_mem_keys hu
      have hs := cs_sound hj
      obtain ⟨t, ht, _⟩ := live_rows_spec st records d h1 hE j hs.1 hs.2.2
      rw [hs.2.1] at ht
      exact mem_keys_of_lookupA ht
    have hsup : ∀ u ∈ newIds records,
        u ∈ currentIds (process_snapshot st records d).1.assets := by
      intro u hu
      obtain ⟨j, hj, huid, hlive⟩ := live_exists st records d hE u hu
      rw [getAsset_eq hj] at huid hlive
      rw [← huid]
      exact cs_complete hj hlive
    have hdiffe : ∀ u j t,
        lookupA (get_current_assets (process_snapshot st records d).1.assets) u = some j →
        lookupA (tidiedMap records) u = some t →
        compare_tidied_assets
          (asset_to_tidied (getAsset (process_snapshot st records d).1.assets j)) t = [] := by
      intro u j t hcs htm
      have hs := cs_sound hcs
      obtain ⟨t', ht', hcmp⟩ := live_rows_spec st records d h1 hE j hs.1 hs.2.2
      rw [hs.2.1, htm] at ht'
      injection ht' with htt
      rw [htt]
      exact hcmp
    have hAdded2 : addedIds (process_snapshot st records d).1.assets records = [] := by
      refine List.filter_eq_nil_iff.mpr ?_
      intro u hu
      have := hsup u hu
      simp [this]
    have hRemoved2 : removedIds (process_snapshot st records d).1.assets records = [] := by
      refine List.filter_eq_nil_iff.mpr ?_
      intro u hu
      have := hsub u hu
      simp [this]
    have hUpdated2 : updatedIds (process_snapshot st records d).1.assets records = [] := by
      refine List.filter_eq_nil_iff.mpr ?_
      intro u hu
      have h2 := List.mem_filter.mp hu
      have hcur := h2.1
      have hnew : u ∈ newIds records := by simpa using h2.2
      obtain ⟨j, hj⟩ := lookupA_isSome_of_mem_keys hcur
      obtain ⟨t, ht⟩ := lookupA_isSome_of_mem_keys hnew
      have hdd := hdiffe u j t hj ht
      have hnildiff : diffOf (process_snapshot st records d).1.assets records u = [] := by
        unfold diffOf
        rw [hj, ht]
        dsimp only
        exact hdd
      simp [hnildiff]
    have hCloseIdxs2 : closeIdxs (process_snapshot st records d).1.assets records = [] := by
      unfold closeIdxs closedUidList
      rw [hRemoved2, hUpdated2]
      rfl
    refine ⟨?_, ?_, ?_, ?_, hdiffe⟩
    · rw [process_snapshot_eq _ records d' hE, hCloseIdxs2, hAdded2,
        hRemoved2, hUpdated2, closeFrom_nil_idxs]
      show ({ assets := (process_snapshot st records d).1.assets ++ [] ++ [],
              events := (process_snapshot st records d).1.events ++ [] ++ [] ++ [],
              meta := (process_snapshot st records d).1.meta } : ReconState) =
        (process_snapshot st records d).1
      simp
    · rw [process_snapshot_eq _ records d' hE, hAdded2]
      rfl
    · rw [process_snapshot_eq _ records d' hE, hUpdated2]
      rfl
    · rw [process_snapshot_eq _ records d' hE, hRemoved2]
      rfl

/-- C5 witness: reconciling a one-record batch onto the empty state and
then the same batch again. -/
theorem C5_reconcile_idempotent_witness :
    (process_snapshot
      (process_snapshot { assets := [], events := [], meta := [] }
        [{ uniqueID := some "A1", description := some "Bell" }] 1).1
      [{ uniqueID := some "A1", description := some "Bell" }] 2).1 =
      (process_snapshot { assets := [], events := [], meta := [] }
        [{ uniqueID := some "A1", description := some "Bell" }] 1).1 :=
  (C5_reconcile_idempotent { assets := [], events := [], meta := [] }
    [{ uniqueID := some "A1", description := some "Bell" }] 1 2
    (fun u => by simp [liveCount])).1

/-- C6 witness: the differ at a concrete category-only change. -/
theorem C6_differ_exact_changed_fields_witness :
    compare_tidied_assets
        (tidy_raw_record { uniqueID := some "A1", category := some "Artefact" })
        (tidy_raw_record { uniqueID := some "A1", category := some "Relic" }) =
      comparedFieldNames.filter (fun f =>
        tidiedFieldValue
          (tidy_raw_record { uniqueID := some "A1", category := some "Artefact" }) f ≠
        tidiedFieldValue
          (tidy_raw_record { uniqueID := some "A1", category := some "Relic" }) f) :=
  (C6_differ_exact_changed_fields.1 _ _).1

/-- C8 witness: the phone returned for the spec's example address is
digits-only. -/
theorem C8_extract_phone_from_address_witness :
    ("02078319222" : String).data.all isDigitC = true :=
  C8_extract_phone_from_address.2.1 "LONDON, EC4A 1LT, 0207 831 9222"
    "LONDON, EC4A 1LT" "02078319222" (by rfl)

end Heritage
